import Mathlib

/-! # autotest: a verification development for `main.cc`

Shallow embedding of the test runner's file handling (`CheckTest`, `CopyTest`,
`PerformTest`), of `main` with its test loop, of `ends_with` and
`CompileSource`, of the fixture names (`input_filename`, `output_filename`) and
of `to_int`.

Conventions of the embedding
* `std::string` and file contents are lists of characters (`Str`).  Streams are
  read byte for byte (the Linux build; no text-mode translation).
* `int` is `Int`; every arithmetic result of the source is passed through
  `wrapInt`, the 32-bit two's-complement wrap, so theorems that depend on a
  counter say in which range they hold.
* `std::ifstream` is `IStream`: the unread characters and the `eofbit` and
  `failbit` flags.  `getline` follows `std::getline`.
* A `while` loop is a function with a pass budget that answers `none` when the
  budget is used up; the callers pass a budget that is shown to be enough.
-/

namespace Autotest

/-- Strings and file contents. -/
abbrev Str := List Char

/-! ## 32-bit integers and their decimal rendering -/

/-- Two's-complement wrap of an integer into the range of a 32-bit `int`. -/
def wrapInt (x : Int) : Int := (x + 2147483648) % 4294967296 - 2147483648

/-- Decimal digits of a natural number, most significant first, no padding. -/
def decimalNat (n : Nat) : Str := Nat.toDigits 10 n

/-- What `stream << n` writes for an `int`: decimal, with `-` when negative. -/
def decimal : Int → Str
  | Int.ofNat n => decimalNat n
  | Int.negSucc n => '-' :: decimalNat (n + 1)

/-! ## Input streams -/

/-- State of a `std::ifstream` that was opened successfully. -/
structure IStream where
  rest : Str
  eofbit : Bool
  failbit : Bool
deriving DecidableEq, Repr

/-- A freshly opened stream on a file with the given contents. -/
def IStream.open (contents : Str) : IStream :=
  { rest := contents, eofbit := false, failbit := false }

/-- Characters up to the first newline, and what follows that newline
(`none` when the input has no newline at all). -/
def readLine : Str → Str × Option Str
  | [] => ([], none)
  | c :: cs =>
    if c = '\n' then ([], some cs)
    else ((c :: (readLine cs).1), (readLine cs).2)

/-- The call `getline(s, str)` of the standard library: when the stream is not
good, `failbit` is set and `str` is left alone; otherwise characters are taken up
to the newline, which is removed from the stream and not stored; reaching the
end of the input sets `eofbit`, and `failbit` too when nothing at all was
taken. -/
def getline (s : IStream) (str : Str) : IStream × Str :=
  if s.eofbit || s.failbit then ({ s with failbit := true }, str)
  else
    match readLine s.rest with
    | (line, some after) => ({ s with rest := after }, line)
    | (line, none) => ({ rest := [], eofbit := true, failbit := line.isEmpty }, line)

/-! ## The comparator `CheckTest` -/

/-- The four-line block returned at the first differing line. -/
def mismatchMessage (line_number : Int) (user_line correct_line : Str) : Str :=
  "wrong\n".toList ++ ("line #".toList ++ decimal line_number ++ "\n".toList)
    ++ ("user line:\t".toList ++ user_line ++ "\n".toList)
    ++ ("correct line:\t".toList ++ correct_line ++ "\n".toList)

def endedEarlyMessage : Str := "wrong: user output ended too early\n".toList

def endedLateMessage : Str := "wrong: user ouput ended too late\n".toList

def correctMessage : Str := "CORRECT\n".toList

/-- The body of `CheckTest` after both files are open: the lockstep loop and the
three checks that follow it.  `budget` bounds the number of passes. -/
def compareStreams : Nat → IStream → IStream → Int → Option Str
  | 0, _, _, _ => none
  | budget + 1, user_fin, correct_fin, line_number =>
    if !user_fin.eofbit && !correct_fin.eofbit then
      let (user_fin1, user_line) := getline user_fin []
      let (correct_fin1, correct_line) := getline correct_fin []
      let line_number1 := wrapInt (line_number + 1)
      if user_line ≠ correct_line then
        some (mismatchMessage line_number1 user_line correct_line)
      else compareStreams budget user_fin1 correct_fin1 line_number1
    else if user_fin.eofbit && !correct_fin.eofbit then some endedEarlyMessage
    else if !user_fin.eofbit && correct_fin.eofbit then some endedLateMessage
    else some correctMessage

/-! ## Files -/

/-- The files the program can see.  `file name` is the contents of a file that
opens for reading, `none` when opening it for reading fails; `writable name`
tells whether opening it for writing succeeds. -/
structure FileSystem where
  file : Str → Option Str
  writable : Str → Bool

/-- The file system in which `name` holds `contents`. -/
def FileSystem.put (fs : FileSystem) (name contents : Str) : FileSystem :=
  { fs with file := fun n => if n = name then some contents else fs.file n }

/-- How a call ends: it returns a value, it throws `runtime_error(what)`, or a
loop of the model used up its pass budget. -/
inductive Outcome (α : Type) where
  | returned (value : α)
  | thrown (what : Str)
  | unfinished
deriving DecidableEq, Repr

/-! ## Fixture names -/

/-- The one-argument `input_filename`: the file the tested program reads. -/
def input_filename (pfx : Str) : Str := pfx ++ ".in".toList

/-- The two-argument `input_filename`: the input of a numbered test. -/
def input_filename_test (pfx : Str) (test_number : Int) : Str :=
  pfx ++ ".".toList ++ decimal test_number ++ ".in".toList

/-- The one-argument `output_filename`: the file the tested program writes. -/
def output_filename (pfx : Str) : Str := pfx ++ ".out".toList

/-- The two-argument `output_filename`: the expected output of a numbered test. -/
def output_filename_test (pfx : Str) (test_number : Int) : Str :=
  pfx ++ ".".toList ++ decimal test_number ++ ".out".toList

/-! ## `CheckTest`, `CopyTest`, `PerformTest` -/

/-- The function `CheckTest`: both streams are opened, a stream that is not open
raises, and the open streams are compared.  It only reads, so the file system it
hands back is the one it was given. -/
def CheckTest (fs : FileSystem) (pfx : Str) (test_number : Int) :
    FileSystem × Outcome Str :=
  match fs.file (output_filename pfx), fs.file (output_filename_test pfx test_number) with
  | none, _ => (fs, .thrown "Could not open user output file".toList)
  | some _, none => (fs, .thrown "Could not open correct output file".toList)
  | some user, some correct =>
    match compareStreams (user.length + 2) (IStream.open user) (IStream.open correct) 0 with
    | some message => (fs, .returned message)
    | none => (fs, .unfinished)

/-- The copy loop of `CopyTest`, `while (getline(fin, line)) fout << line << "\n"`,
with what has been written to `fout` so far. -/
def copyLines : Nat → IStream → Str → Str → Option Str
  | 0, _, _, _ => none
  | budget + 1, fin, line, written =>
    let (fin1, line1) := getline fin line
    if !fin1.failbit then copyLines budget fin1 line1 (written ++ line1 ++ "\n".toList)
    else some written

/-- The function `CopyTest`.  The output stream is constructed, and so the user
input file created or emptied, before either stream is tested.  The two names
are different files (`input_filename_ne_test`), so the source is read as it was
on entry. -/
def CopyTest (fs : FileSystem) (pfx : Str) (test_number : Int) :
    FileSystem × Outcome Unit :=
  let fin := fs.file (input_filename_test pfx test_number)
  let fout_is_open := fs.writable (input_filename pfx)
  let fs1 := if fout_is_open then fs.put (input_filename pfx) [] else fs
  match fin with
  | none => (fs1, .thrown "Could not open test input file".toList)
  | some source =>
    if !fout_is_open then (fs1, .thrown "Could not open user input file".toList)
    else
      match copyLines (source.length + 2) (IStream.open source) [] [] with
      | some written => (fs1.put (input_filename pfx) written, .returned ())
      | none => (fs1, .unfinished)

/-- The function `PerformTest`; `run` is the effect on the files of
`RunAndWait(kExecutableName)`, the tested program. -/
def PerformTest (run : FileSystem → FileSystem) (fs : FileSystem) (pfx : Str)
    (test_number : Int) : FileSystem × Outcome Str :=
  match CopyTest fs pfx test_number with
  | (fs1, .thrown what) => (fs1, .thrown what)
  | (fs1, .unfinished) => (fs1, .unfinished)
  | (fs1, .returned ()) =>
    match CheckTest (run fs1) pfx test_number with
    | (fs2, .thrown what) => (fs2, .thrown what)
    | (fs2, .unfinished) => (fs2, .unfinished)
    | (fs2, .returned result) =>
      (fs2, .returned ("Test #".toList ++ decimal test_number ++ ": ".toList ++ result))

/-! ## The test loop of `main` -/

/-- What the test loop leaves behind: the files, the pieces written to `cout`
in order (one `message << "\n"` per report), and how the loop ended. -/
structure LoopResult where
  fs : FileSystem
  cout : List Str
  outcome : Outcome Unit

/-- The loop `for (int i = 1; i <= tests; ++i)` of `main`, started at `i`. -/
def testLoop (run : FileSystem → FileSystem) (pfx : Str) (tests : Int) :
    Nat → FileSystem → Int → List Str → LoopResult
  | 0, fs, _, cout => { fs := fs, cout := cout, outcome := .unfinished }
  | budget + 1, fs, i, cout =>
    if i ≤ tests then
      match PerformTest run fs pfx i with
      | (fs1, .returned message) =>
        testLoop run pfx tests budget fs1 (wrapInt (i + 1)) (cout ++ [message ++ "\n".toList])
      | (fs1, .thrown what) => { fs := fs1, cout := cout, outcome := .thrown what }
      | (fs1, .unfinished) => { fs := fs1, cout := cout, outcome := .unfinished }
    else { fs := fs, cout := cout, outcome := .returned () }

/-! ## `to_int` -/

/-- The digit loop of `to_int` over the characters not yet visited; `str` is the
whole argument, used in the message of the exception. -/
def to_int_digits (str : Str) : Str → Int → Except Str Int
  | [], num => .ok num
  | c :: cs, num =>
    if '0' ≤ c ∧ c ≤ '9' then
      to_int_digits str cs (wrapInt (wrapInt (wrapInt (num * 10) + c.toNat) - ('0').toNat))
    else .error (str ++ " is not a number".toList)

/-- The function `to_int`.  `str[0]` of an empty string is the terminating
null character. -/
def to_int (str : Str) : Except Str Int :=
  let first := str.headD (Char.ofNat 0)
  let sign : Int := if first = '-' then -1 else 1
  let start_pos : Nat := if first = '-' then 1 else 0
  match to_int_digits str (str.drop start_pos) 0 with
  | .ok num => .ok (wrapInt (sign * num))
  | .error what => .error what

/-- A file system given by a table of names and contents; every name can be
opened for writing. -/
def FileSystem.ofList (table : List (Str × Str)) : FileSystem :=
  { file := fun n => (table.lookup n), writable := fun _ => true }

/-- The whole loop of `main` from `i = 1`, with a budget of one pass per test
and one for the final test of the loop condition. -/
def runTests (run : FileSystem → FileSystem) (pfx : Str) (tests : Int)
    (fs : FileSystem) : LoopResult :=
  testLoop run pfx tests (tests.toNat + 1) fs 1 []

/-- The text made of the given lines, each followed by one newline. -/
def terminated : List Str → Str
  | [] => []
  | l :: ls => l ++ '\n' :: terminated ls

/-- The statement `++line_number`. -/
def nextLineNumber (line_number : Int) : Int := wrapInt (line_number + 1)

/-- The number a run of decimal digits stands for. -/
def digitsValue (s : Str) : Nat := s.foldl (fun acc c => acc * 10 + (c.toNat - 48)) 0

/-- The contents themselves when they are empty or end with a newline, and the
contents followed by one newline otherwise. -/
def withFinalNewline (contents : Str) : Str :=
  if contents = [] ∨ contents.getLast? = some '\n' then contents else contents ++ ['\n']

/-- The lines of a text as successive `getline` calls deliver them up to the end
of the file: the pieces between newlines, the last one being what follows the
last newline (empty when the text is empty or ends with a newline). -/
def fileLines : Str → List Str
  | [] => [[]]
  | c :: cs =>
    if c = '\n' then [] :: fileLines cs
    else (c :: (fileLines cs).headD []) :: (fileLines cs).tail

/-- The lines of a text: the pieces ended by a newline, and the piece after the
last newline when it is not empty. -/
def textLines (s : Str) : List Str :=
  if (fileLines s).getLast? = some [] then (fileLines s).dropLast else fileLines s

/-- Whether a call ended by throwing. -/
def Outcome.raised {α : Type} : Outcome α → Bool
  | .thrown _ => true
  | _ => false

/-- Whether `CopyTest`, or `CheckTest` after the tested program has run, raises
in test `i` started on the files `fs`. -/
def raisesAt (run : FileSystem → FileSystem) (fs : FileSystem) (pfx : Str) (i : Int) :
    Bool :=
  (CopyTest fs pfx i).2.raised || (CheckTest (run (CopyTest fs pfx i).1) pfx i).2.raised

/-- The files as test `j + 1` finds them: the initial files for the first test,
and for each later test what the test before it left. -/
def stateBefore (run : FileSystem → FileSystem) (pfx : Str) (fs : FileSystem) :
    Nat → FileSystem
  | 0 => fs
  | j + 1 => (PerformTest run (stateBefore run pfx fs j) pfx ((j : Int) + 1)).1

/-- The piece written to `cout` for test `j + 1`, when that test returns. -/
def reportAt (run : FileSystem → FileSystem) (pfx : Str) (fs : FileSystem) (j : Nat) : Str :=
  match (PerformTest run (stateBefore run pfx fs j) pfx ((j : Int) + 1)).2 with
  | .returned message => message ++ "\n".toList
  | _ => []

/-- A tested program for the examples: it copies `t.in` to `t.out`. -/
def copyProgram (fs : FileSystem) : FileSystem :=
  match fs.file "t.in".toList with
  | some contents => fs.put "t.out".toList contents
  | none => fs

/-- Fixtures for the examples: tests 1 and 2 of prefix `t`, and no test 3. -/
def twoFixtures : FileSystem :=
  FileSystem.ofList [("t.1.in".toList, "5\n".toList), ("t.1.out".toList, "5\n".toList),
    ("t.2.in".toList, "3\n".toList), ("t.2.out".toList, "4\n".toList)]

/-- Passes a stream can still take part in, counting the final test of the loop
condition: what is left of the budget has to cover this. -/
def passesLeft (s : IStream) : Nat := if s.eofbit then 1 else s.rest.length + 2

/-! ## `ends_with` and `CompileSource` -/

/-- The call `equal(first1, last1, first2)` of the standard library on the
elements of the first range and the elements from `first2` on. -/
def rangeEqual : Str → Str → Bool
  | [], _ => true
  | _ :: _, [] => false
  | a :: as, b :: bs => a == b && rangeEqual as bs

/-- The function `ends_with`: both strings are walked from their last
character. -/
def ends_with (str ending : Str) : Bool :=
  if ending.length > str.length then false
  else rangeEqual ending.reverse str.reverse

/-- What the two builds of the source differ in: the compiler processes and
`kExecutableName`. -/
structure Build where
  c_compiler : Str
  cpp_compiler : Str
  kExecutableName : Str

/-- The build under `__linux__`. -/
def Build.linux : Build :=
  { c_compiler := "/usr/bin/gcc".toList, cpp_compiler := "/usr/bin/g++".toList,
    kExecutableName := "supercalifragilistic".toList }

/-- The build under `_WIN32`. -/
def Build.windows : Build :=
  { c_compiler := "gcc".toList, cpp_compiler := "g++".toList,
    kExecutableName := "supercalifragilistic.exe".toList }

/-- The files together with the record of the processes launched so far, each
with its parameter string. -/
structure Machine where
  fs : FileSystem
  launched : List (Str × Str)

/-- The function `RunAndWait`: the process is launched and waited for; `exec` is
what a process with given parameters does to the files. -/
def RunAndWait (exec : Str → Str → FileSystem → FileSystem) (m : Machine)
    (process parameters : Str) : Machine :=
  { fs := exec process parameters m.fs, launched := m.launched ++ [(process, parameters)] }

/-- The function `CompileSource`; `.error what` is `invalid_argument(what)`. -/
def CompileSource (b : Build) (exec : Str → Str → FileSystem → FileSystem) (m : Machine)
    (source_name : Str) : Machine × Except Str Unit :=
  if ends_with source_name ".c".toList then
    (RunAndWait exec m b.c_compiler
      ("-Wall -Werror ".toList ++ source_name ++ " -o ".toList ++ b.kExecutableName), .ok ())
  else if ends_with source_name ".cpp".toList || ends_with source_name ".cc".toList then
    (RunAndWait exec m b.cpp_compiler
      ("-Wall -Werror -std=c++11 ".toList ++ source_name ++ " -o ".toList
        ++ b.kExecutableName), .ok ())
  else (m, .error (source_name ++ " does not have a supported file extension".toList))

/-! ## `main` -/

/-- What a run of `main` leaves behind: the exit code (`none` when the test loop
of the model used up its budget), the pieces written to `cout` and to `cerr`,
and the files. -/
structure MainResult where
  exit : Option Int
  cout : List Str
  cerr : List Str
  fs : FileSystem

/-- The usage text of `main`. -/
def usageText : Str :=
  ("The program expects these arguments:\n" ++
   " - [path from this directory to destination]\n" ++
   " - [source name]\n" ++
   " - [test-files name]\n" ++
   " - [number of tests]\n").toList

/-- The function `main` on the argument vector `argv` (the program name
included, so `argc` is its length).  `chdir` is the view of the files after
`ChangeDirectory`, `exec` the effect of a launched process on the files. -/
def main (b : Build) (chdir : Str → FileSystem → FileSystem)
    (exec : Str → Str → FileSystem → FileSystem) (argv : List Str) (fs : FileSystem) :
    MainResult :=
  if argv.length ≠ 5 then { exit := some 0, cout := [usageText], cerr := [], fs := fs }
  else
    match CompileSource b exec { fs := chdir (argv.getD 1 []) fs, launched := [] }
        (argv.getD 2 []) with
    | (m, .error what) =>
      { exit := some 0, cout := [], cerr := [what ++ "\n".toList], fs := m.fs }
    | (m, .ok ()) =>
      match to_int (argv.getD 4 []) with
      | .error what =>
        { exit := some 0, cout := [], cerr := [what ++ "\n".toList], fs := m.fs }
      | .ok tests =>
        let r := runTests (exec b.kExecutableName []) (argv.getD 3 []) tests m.fs
        match r.outcome with
        | .returned () => { exit := some 0, cout := r.cout, cerr := [], fs := r.fs }
        | .thrown what =>
          { exit := some 1, cout := r.cout,
            cerr := ["An error occured during testing\n".toList, what ++ "\n".toList],
            fs := r.fs }
        | .unfinished => { exit := none, cout := r.cout, cerr := [], fs := r.fs }

/-- The text that a sequence of writes to a stream makes up. -/
def streamText : List Str → Str
  | [] => []
  | piece :: pieces => piece ++ streamText pieces

/-- Whether a character is one of `'0'` to `'9'`, the test of `to_int`. -/
def isDigit (c : Char) : Bool := decide ('0' ≤ c ∧ c ≤ '9')

/-- The characters `to_int` runs its digit loop over: the string without its
first character when that is `'-'`, the whole string otherwise. -/
def afterSign (str : Str) : Str :=
  match str with
  | '-' :: cs => cs
  | _ => str

/-- The sign `to_int` applies: `-1` when the string starts with `'-'`. -/
def signOf (str : Str) : Int :=
  match str with
  | '-' :: _ => -1
  | _ => 1

/-- The files the test loop of `main` starts on: the view after
`ChangeDirectory(argv[1])`, as `CompileSource(argv[2])` leaves it. -/
def filesForTests (b : Build) (chdir : Str → FileSystem → FileSystem)
    (exec : Str → Str → FileSystem → FileSystem) (argv : List Str) (fs : FileSystem) :
    FileSystem :=
  (CompileSource b exec { fs := chdir (argv.getD 1 []) fs, launched := [] }
    (argv.getD 2 [])).1.fs

/-- Fixtures for the examples on which `copyProgram` passes both tests. -/
def passingFixtures : FileSystem :=
  FileSystem.ofList [("t.1.in".toList, "5\n".toList), ("t.1.out".toList, "5\n".toList),
    ("t.2.in".toList, "3\n".toList), ("t.2.out".toList, "3\n".toList)]

/-- The launcher for the examples: the tested program is `copyProgram`, every
other process leaves the files alone. -/
def copyExec : Str → Str → FileSystem → FileSystem :=
  fun process _ fs => if process = Build.linux.kExecutableName then copyProgram fs else fs

/-! # Theorems -/

/-! ## Reading a line -/

theorem readLine_of_not_mem (l : Str) (h : '\n' ∉ l) : readLine l = (l, none) := by
  induction l with
  | nil => rfl
  | cons c cs ih =>
    have hc : c ≠ '\n' := fun e => h (by simp [e])
    have hcs : '\n' ∉ cs := fun e => h (List.mem_cons_of_mem _ e)
    simp [readLine, hc, ih hcs]

theorem readLine_append_newline (l r : Str) (h : '\n' ∉ l) :
    readLine (l ++ '\n' :: r) = (l, some r) := by
  induction l with
  | nil => simp [readLine]
  | cons c cs ih =>
    have hc : c ≠ '\n' := fun e => h (by simp [e])
    have hcs : '\n' ∉ cs := fun e => h (List.mem_cons_of_mem _ e)
    simp [readLine, hc, ih hcs]

theorem readLine_some (s : Str) : ∀ l r, readLine s = (l, some r) →
    s = l ++ '\n' :: r ∧ '\n' ∉ l := by
  induction s with
  | nil => intro l r h; simp [readLine] at h
  | cons c cs ih =>
    intro l r h
    by_cases hc : c = '\n'
    · simp [readLine, hc] at h
      obtain ⟨h1, h2⟩ := h
      subst h1; subst h2; simp [hc]
    · simp only [readLine, hc, if_false, Prod.mk.injEq] at h
      obtain ⟨h1, h2⟩ := h
      obtain ⟨e, hm⟩ := ih (readLine cs).1 r (by rw [← h2])
      subst h1
      refine ⟨by simp; exact e, ?_⟩
      simp only [List.mem_cons, not_or]
      exact ⟨fun e => hc e.symm, hm⟩

theorem readLine_none (s : Str) : ∀ l, readLine s = (l, none) → s = l ∧ '\n' ∉ l := by
  induction s with
  | nil => intro l h; simp [readLine] at h; subst h; simp
  | cons c cs ih =>
    intro l h
    by_cases hc : c = '\n'
    · simp [readLine, hc] at h
    · simp only [readLine, hc, if_false, Prod.mk.injEq] at h
      obtain ⟨h1, h2⟩ := h
      obtain ⟨e, hm⟩ := ih (readLine cs).1 (by rw [← h2])
      subst h1
      refine ⟨by simp; exact e, ?_⟩
      simp only [List.mem_cons, not_or]
      exact ⟨fun e => hc e.symm, hm⟩

/-! ## The lines `getline` delivers -/

/-- The list `fileLines` follows `readLine`: its head is the line `readLine`
takes, its tail the lines of what `readLine` leaves. -/
theorem fileLines_eq_readLine (s : Str) :
    fileLines s = (readLine s).1 ::
      (match (readLine s).2 with
       | none => []
       | some r => fileLines r) := by
  induction s with
  | nil => rfl
  | cons c cs ih =>
    by_cases hc : c = '\n'
    · simp [fileLines, readLine, hc]
    · simp only [fileLines, readLine, hc, if_false]
      rw [ih]
      simp

theorem fileLines_no_newline (s : Str) : ∀ l ∈ fileLines s, '\n' ∉ l := by
  induction s with
  | nil => simp [fileLines]
  | cons c cs ih =>
    by_cases hc : c = '\n'
    · simp only [fileLines, hc, if_true, List.mem_cons]
      rintro l (h | h)
      · subst h; simp
      · exact ih l h
    · rw [fileLines_eq_readLine] at ih
      rw [fileLines_eq_readLine]
      simp only [readLine, hc, if_false, List.mem_cons]
      rintro l (h | h)
      · subst h
        simp only [List.mem_cons, not_or]
        exact ⟨fun e => hc e.symm, ih _ (by simp)⟩
      · exact ih l (by simp [h])

/-- A text split at its line number `j + 1`: the lines before it, each with its
newline, then that line, then nothing or a newline and more. -/
theorem fileLines_split : ∀ (j : Nat) (s a : Str), (fileLines s)[j]? = some a →
    ∃ ra, s = terminated ((fileLines s).take j) ++ a ++ ra
      ∧ (ra = [] ∨ ∃ t, ra = '\n' :: t) := by
  intro j
  induction j with
  | zero =>
    intro s a h
    rw [fileLines_eq_readLine] at h
    simp only [List.getElem?_cons_zero, Option.some.injEq] at h
    rcases hr : readLine s with ⟨l, _ | r⟩
    · obtain ⟨e, _⟩ := readLine_none _ _ hr
      rw [hr] at h
      refine ⟨[], ?_, Or.inl rfl⟩
      simp at h
      simp [terminated, ← h, e]
    · obtain ⟨e, _⟩ := readLine_some _ _ _ hr
      rw [hr] at h
      refine ⟨'\n' :: r, ?_, Or.inr ⟨r, rfl⟩⟩
      simp at h
      simp [terminated, ← h, e]
  | succ k ih =>
    intro s a h
    rw [fileLines_eq_readLine] at h ⊢
    rcases hr : readLine s with ⟨l, _ | r⟩
    · rw [hr] at h
      simp at h
    · obtain ⟨e, _⟩ := readLine_some _ _ _ hr
      rw [hr] at h
      simp only [List.getElem?_cons_succ] at h
      obtain ⟨ra, h1, h2⟩ := ih r a h
      refine ⟨ra, ?_, h2⟩
      simp only [List.take_succ_cons, terminated]
      rw [e]
      nth_rewrite 1 [h1]
      simp

/-! ## `getline` on a good stream -/

theorem getline_newline (s : IStream) (str l r : Str) (he : s.eofbit = false)
    (hf : s.failbit = false) (hr : s.rest = l ++ '\n' :: r) (hl : '\n' ∉ l) :
    getline s str = ({ s with rest := r }, l) := by
  simp [getline, he, hf, hr, readLine_append_newline l r hl]

theorem getline_last (s : IStream) (str l : Str) (he : s.eofbit = false)
    (hf : s.failbit = false) (hr : s.rest = l) (hl : '\n' ∉ l) :
    getline s str = ({ rest := [], eofbit := true, failbit := l.isEmpty }, l) := by
  simp [getline, he, hf, hr, readLine_of_not_mem l hl]

/-- After `getline` on a good stream, the stream is at the end of the file or
still good, and it has fewer passes left. -/
theorem getline_passesLeft (s : IStream) (str : Str) (he : s.eofbit = false)
    (hf : s.failbit = false) :
    ((getline s str).1.eofbit = true ∨ (getline s str).1.failbit = false) ∧
      passesLeft (getline s str).1 < passesLeft s := by
  rcases h : readLine s.rest with ⟨l, _ | r⟩
  · obtain ⟨e, hl⟩ := readLine_none _ _ h
    rw [getline_last s str l he hf e hl]
    simp [passesLeft, he]
  · obtain ⟨e, hl⟩ := readLine_some _ _ _ h
    rw [getline_newline s str l r he hf e hl]
    simp [passesLeft, he, hf, e]
    omega

theorem passesLeft_pos (s : IStream) : 0 < passesLeft s := by
  unfold passesLeft; split <;> omega

/-! ## The lockstep loop -/

/-- With a budget that covers the user stream, the loop of `CheckTest` ends and
yields a message. -/
theorem compareStreams_isSome : ∀ (budget : Nat) (user_fin correct_fin : IStream)
    (line_number : Int), (user_fin.eofbit = true ∨ user_fin.failbit = false) →
    passesLeft user_fin ≤ budget →
    (compareStreams budget user_fin correct_fin line_number).isSome = true := by
  intro budget
  induction budget with
  | zero =>
    intro u c ln _ hb
    have := passesLeft_pos u
    omega
  | succ b ih =>
    intro u c ln hu hb
    unfold compareStreams
    by_cases he : u.eofbit = true
    · cases hc : c.eofbit <;> simp [he, hc]
    · have he : u.eofbit = false := by simpa using he
      have hf : u.failbit = false := by
        rcases hu with h | h
        · rw [he] at h; cases h
        · exact h
      cases hc : c.eofbit
      · obtain ⟨h1, h2⟩ := getline_passesLeft u [] he hf
        simp only [he, hc, Bool.not_false, Bool.and_self, if_true]
        split
        · rfl
        · exact ih _ _ _ h1 (by omega)
      · simp [he, hc]

/-- Two streams in the same state compare as `CORRECT`. -/
theorem compareStreams_self : ∀ (budget : Nat) (s : IStream) (line_number : Int),
    (s.eofbit = true ∨ s.failbit = false) → passesLeft s ≤ budget →
    compareStreams budget s s line_number = some correctMessage := by
  intro budget
  induction budget with
  | zero =>
    intro s ln _ hb
    have := passesLeft_pos s
    omega
  | succ b ih =>
    intro s ln hs hb
    unfold compareStreams
    by_cases he : s.eofbit = true
    · simp [he]
    · have he : s.eofbit = false := by simpa using he
      have hf : s.failbit = false := by
        rcases hs with h | h
        · rw [he] at h; cases h
        · exact h
      obtain ⟨h1, h2⟩ := getline_passesLeft s [] he hf
      simp only [he, Bool.not_false, Bool.and_self, if_true, ne_eq, not_true_eq_false,
        if_false]
      exact ih _ _ h1 (by omega)

theorem passesLeft_open (contents : Str) :
    passesLeft (IStream.open contents) = contents.length + 2 := rfl

/-! ## The line counter -/

theorem wrapInt_of_range (x : Int) (h0 : -2147483648 ≤ x) (h1 : x < 2147483648) :
    wrapInt x = x := by
  unfold wrapInt
  rw [Int.emod_eq_of_lt (by omega) (by omega)]
  omega

theorem nextLineNumber_iterate (n : Nat) : ∀ line_number : Int, 0 ≤ line_number →
    line_number + n < 2147483648 → nextLineNumber^[n] line_number = line_number + n := by
  induction n with
  | zero => intro ln _ _; simp
  | succ k ih =>
    intro ln h0 h1
    rw [Function.iterate_succ_apply]
    have hw : nextLineNumber ln = ln + 1 := by
      unfold nextLineNumber
      exact wrapInt_of_range _ (by omega) (by push_cast at h1; omega)
    rw [hw, ih (ln + 1) (by omega) (by push_cast at h1 ⊢; omega)]
    push_cast
    ring

theorem terminated_length (pre : List Str) : pre.length ≤ (terminated pre).length := by
  induction pre with
  | nil => simp [terminated]
  | cons l ls ih => simp [terminated]; omega

/-- The first line of a text that starts with a line free of newlines and goes
on with nothing or with a newline. -/
theorem getline_first (s : IStream) (str a ra : Str) (he : s.eofbit = false)
    (hf : s.failbit = false) (hr : s.rest = a ++ ra) (ha : '\n' ∉ a)
    (hra : ra = [] ∨ ∃ t, ra = '\n' :: t) : (getline s str).2 = a := by
  rcases hra with h | ⟨t, h⟩
  · subst h
    rw [getline_last s str a he hf (by simpa using hr) ha]
  · subst h
    rw [getline_newline s str a t he hf hr ha]

/-- Lockstep over a common run of lines followed by two different lines: the
loop answers with the mismatch block carrying those two lines, numbered by the
counter after one increment per pass. -/
theorem compareStreams_common_lines (user_line correct_line user_rest correct_rest : Str)
    (hu : '\n' ∉ user_line) (hc : '\n' ∉ correct_line)
    (hur : user_rest = [] ∨ ∃ t, user_rest = '\n' :: t)
    (hcr : correct_rest = [] ∨ ∃ t, correct_rest = '\n' :: t)
    (hne : user_line ≠ correct_line) :
    ∀ (pre : List Str), (∀ l ∈ pre, '\n' ∉ l) →
    ∀ (budget : Nat) (user_fin correct_fin : IStream) (line_number : Int),
    user_fin.eofbit = false → user_fin.failbit = false →
    correct_fin.eofbit = false → correct_fin.failbit = false →
    user_fin.rest = terminated pre ++ user_line ++ user_rest →
    correct_fin.rest = terminated pre ++ correct_line ++ correct_rest →
    pre.length + 1 ≤ budget →
    compareStreams budget user_fin correct_fin line_number =
      some (mismatchMessage (nextLineNumber^[pre.length + 1] line_number)
        user_line correct_line) := by
  intro pre
  induction pre with
  | nil =>
    intro _ budget u c ln hue huf hce hcf hur' hcr' hb
    obtain ⟨b, rfl⟩ : ∃ b, budget = b + 1 := ⟨budget - 1, by simp at hb; omega⟩
    have h1 := getline_first u [] user_line user_rest hue huf (by simpa [terminated] using hur') hu hur
    have h2 := getline_first c [] correct_line correct_rest hce hcf
      (by simpa [terminated] using hcr') hc hcr
    unfold compareStreams
    simp only [hue, hce, Bool.not_false, Bool.and_self, if_true, h1, h2, ne_eq, hne,
      not_false_eq_true]
    rfl
  | cons p ps ih =>
    intro hp budget u c ln hue huf hce hcf hur' hcr' hb
    obtain ⟨b, rfl⟩ : ∃ b, budget = b + 1 := ⟨budget - 1, by simp at hb; omega⟩
    have hpn : '\n' ∉ p := hp p (by simp)
    have h1 := getline_newline u [] p (terminated ps ++ user_line ++ user_rest) hue huf
      (by simpa [terminated] using hur') hpn
    have h2 := getline_newline c [] p (terminated ps ++ correct_line ++ correct_rest) hce hcf
      (by simpa [terminated] using hcr') hpn
    unfold compareStreams
    simp only [hue, hce, Bool.not_false, Bool.and_self, if_true, h1, h2, ne_eq,
      not_true_eq_false, if_false]
    rw [ih (fun l hl => hp l (List.mem_cons_of_mem _ hl)) b
      ⟨terminated ps ++ user_line ++ user_rest, false, u.failbit⟩
      ⟨terminated ps ++ correct_line ++ correct_rest, false, c.failbit⟩ _ rfl huf rfl hcf rfl rfl
      (by simp at hb ⊢; omega)]
    rfl

/-! ## Verdicts of `CheckTest` -/

/-- C1, evaluated on the code: with user output "25\n" and expected output
"25\n36\n" (one matching line, then the user output stops), `CheckTest` does not
answer "wrong: user output ended too early\n".  The pass that reads the second
expected line reads an empty user line at the end of the user file, the two
differ, and the mismatch block for line 2 is returned. -/
theorem CheckTest_user_stops_after_matching_line :
    (CheckTest (FileSystem.ofList [("t.out".toList, "25\n".toList),
        ("t.1.out".toList, "25\n36\n".toList)]) "t".toList 1).2
      = .returned "wrong\nline #2\nuser line:\t\ncorrect line:\t36\n".toList
    ∧ (CheckTest (FileSystem.ofList [("t.out".toList, "25\n".toList),
        ("t.1.out".toList, "25\n36\n".toList)]) "t".toList 1).2
      ≠ .returned "wrong: user output ended too early\n".toList := by
  decide

/-- C2, evaluated on the code: with user output "25\n36\n" and expected output
"25\n" (the expected output stops after one matching line), `CheckTest` does not
answer "wrong: user ouput ended too late\n".  The pass that reads the second user
line reads an empty expected line at the end of the expected file, the two
differ, and the mismatch block for line 2 is returned. -/
theorem CheckTest_expected_stops_after_matching_line :
    (CheckTest (FileSystem.ofList [("t.out".toList, "25\n36\n".toList),
        ("t.1.out".toList, "25\n".toList)]) "t".toList 1).2
      = .returned "wrong\nline #2\nuser line:\t36\ncorrect line:\t\n".toList
    ∧ (CheckTest (FileSystem.ofList [("t.out".toList, "25\n36\n".toList),
        ("t.1.out".toList, "25\n".toList)]) "t".toList 1).2
      ≠ .returned "wrong: user ouput ended too late\n".toList := by
  decide

/-- C3: when the user output file and the expected output file both open and
hold the same contents `c` (any contents: empty, with or without a final
newline), `CheckTest` returns "CORRECT\n". -/
theorem CheckTest_identical_files (fs : FileSystem) (pfx : Str) (test_number : Int)
    (c : Str) (hu : fs.file (output_filename pfx) = some c)
    (hc : fs.file (output_filename_test pfx test_number) = some c) :
    CheckTest fs pfx test_number = (fs, .returned "CORRECT\n".toList) := by
  unfold CheckTest
  rw [hu, hc]
  simp only
  rw [compareStreams_self (c.length + 2) (IStream.open c) 0 (Or.inr rfl)
    (by rw [passesLeft_open])]
  rfl

/-- C3 at a file without a final newline, "25" on both sides. -/
theorem CheckTest_identical_files_witness :
    CheckTest (FileSystem.ofList [("t.out".toList, "25".toList),
        ("t.1.out".toList, "25".toList)]) "t".toList 1
      = (FileSystem.ofList [("t.out".toList, "25".toList),
        ("t.1.out".toList, "25".toList)], .returned "CORRECT\n".toList) :=
  CheckTest_identical_files _ _ _ "25".toList (by decide) (by decide)

/-- C4: when both files start with the same `k` lines `pre` and go on with the
lines `user_line` and `correct_line`, which differ (each line ended by a newline
or by the end of its file), `CheckTest` returns the mismatch block for line
`k + 1` with these two lines, whatever follows them.  The line counter is a
32-bit `int`, so `k + 1` is taken below `2^31`. -/
theorem CheckTest_first_mismatch (fs : FileSystem) (pfx : Str) (test_number : Int)
    (pre : List Str) (user_line correct_line user_rest correct_rest : Str)
    (hpre : ∀ l ∈ pre, '\n' ∉ l) (hu : '\n' ∉ user_line) (hc : '\n' ∉ correct_line)
    (hur : user_rest = [] ∨ ∃ t, user_rest = '\n' :: t)
    (hcr : correct_rest = [] ∨ ∃ t, correct_rest = '\n' :: t)
    (hne : user_line ≠ correct_line) (hk : pre.length + 1 < 2147483648)
    (hfu : fs.file (output_filename pfx) = some (terminated pre ++ user_line ++ user_rest))
    (hfc : fs.file (output_filename_test pfx test_number)
      = some (terminated pre ++ correct_line ++ correct_rest)) :
    CheckTest fs pfx test_number
      = (fs, .returned ("wrong\nline #".toList ++ decimal (pre.length + 1)
          ++ "\nuser line:\t".toList ++ user_line
          ++ "\ncorrect line:\t".toList ++ correct_line ++ "\n".toList)) := by
  unfold CheckTest
  rw [hfu, hfc]
  simp only
  rw [compareStreams_common_lines user_line correct_line user_rest correct_rest hu hc hur hcr
    hne pre hpre _ (IStream.open _) (IStream.open _) 0 rfl rfl rfl rfl rfl rfl
    (by have := terminated_length pre; simp only [List.length_append]; omega)]
  rw [nextLineNumber_iterate _ 0 (le_refl _) (by push_cast; omega)]
  simp [mismatchMessage]

/-- C4 at user output "25\n36\n40\n" against expected output "25\n37\n": one
common line, then "36" against "37" on line 2. -/
theorem CheckTest_first_mismatch_witness :
    CheckTest (FileSystem.ofList [("t.out".toList, "25\n36\n40\n".toList),
        ("t.1.out".toList, "25\n37\n".toList)]) "t".toList 1
      = (FileSystem.ofList [("t.out".toList, "25\n36\n40\n".toList),
          ("t.1.out".toList, "25\n37\n".toList)],
        .returned ("wrong\nline #".toList ++ decimal ((["25".toList].length : Nat) + 1)
          ++ "\nuser line:\t".toList ++ "36".toList
          ++ "\ncorrect line:\t".toList ++ "37".toList ++ "\n".toList)) :=
  CheckTest_first_mismatch _ "t".toList 1 ["25".toList] "36".toList "37".toList
    "\n40\n".toList "\n".toList (by decide) (by decide) (by decide)
    (Or.inr ⟨"40\n".toList, rfl⟩) (Or.inr ⟨[], rfl⟩) (by decide) (by decide) (by decide)
    (by decide)

/-! ## `to_int` -/

/-- C5, evaluated on the code: `to_int` does not reject the empty string nor the
bare "-"; for both it returns 0 (the digit loop has nothing to visit, so no
character is ever refused). -/
theorem to_int_empty_and_bare_minus :
    to_int "".toList = .ok 0 ∧ to_int "-".toList = .ok 0 :=
  ⟨rfl, rfl⟩

/-! ## Decimal rendering is one-to-one -/

theorem digitChar_value (d : Nat) (h : d < 10) : (Nat.digitChar d).toNat - 48 = d := by
  interval_cases d <;> rfl

theorem digitChar_ne_minus (d : Nat) (h : d < 10) : Nat.digitChar d ≠ '-' := by
  interval_cases d <;> decide

theorem toDigitsCore_value : ∀ (fuel n : Nat) (ds : Str), n < fuel →
    (Nat.toDigitsCore 10 fuel n ds).foldl (fun acc c => acc * 10 + (c.toNat - 48)) 0
      = ds.foldl (fun acc c => acc * 10 + (c.toNat - 48)) n := by
  intro fuel
  induction fuel with
  | zero => intro n ds h; omega
  | succ f ih =>
    intro n ds h
    unfold Nat.toDigitsCore
    simp only
    split
    · rename_i h0
      simp only [List.foldl_cons, zero_mul, zero_add]
      rw [digitChar_value _ (Nat.mod_lt _ (by norm_num))]
      have : n % 10 = n := by omega
      rw [this]
    · rename_i h0
      rw [ih (n / 10) _ (by omega)]
      simp only [List.foldl_cons]
      rw [digitChar_value _ (Nat.mod_lt _ (by norm_num))]
      have : n / 10 * 10 + n % 10 = n := by omega
      rw [this]

theorem digitsValue_decimalNat (n : Nat) : digitsValue (decimalNat n) = n := by
  unfold digitsValue decimalNat Nat.toDigits
  rw [toDigitsCore_value (n + 1) n [] (by omega)]
  rfl

theorem toDigitsCore_head : ∀ (fuel n : Nat) (ds : Str),
    ∃ d, d < 10 ∧ ∃ t, Nat.toDigitsCore 10 (fuel + 1) n ds = Nat.digitChar d :: t := by
  intro fuel
  induction fuel with
  | zero =>
    intro n ds
    refine ⟨n % 10, Nat.mod_lt _ (by norm_num), ds, ?_⟩
    simp [Nat.toDigitsCore]
  | succ f ih =>
    intro n ds
    by_cases h0 : n / 10 = 0
    · refine ⟨n % 10, Nat.mod_lt _ (by norm_num), ds, ?_⟩
      rw [Nat.toDigitsCore]
      simp [h0]
    · obtain ⟨d, hd, t, ht⟩ := ih (n / 10) (Nat.digitChar (n % 10) :: ds)
      refine ⟨d, hd, t, ?_⟩
      rw [Nat.toDigitsCore]
      simp only [h0, if_false]
      exact ht

theorem decimalNat_head (n : Nat) : ∃ d, d < 10 ∧ ∃ t, decimalNat n = Nat.digitChar d :: t :=
  toDigitsCore_head n n []

theorem decimal_injective (n m : Int) (h : decimal n = decimal m) : n = m := by
  cases n with
  | ofNat a =>
    cases m with
    | ofNat b =>
      have := congrArg digitsValue h
      simp only [decimal, digitsValue_decimalNat] at this
      rw [this]
    | negSucc b =>
      obtain ⟨d, hd, t, ht⟩ := decimalNat_head a
      simp only [decimal, ht, List.cons.injEq] at h
      exact absurd h.1 (digitChar_ne_minus d hd)
  | negSucc a =>
    cases m with
    | ofNat b =>
      obtain ⟨d, hd, t, ht⟩ := decimalNat_head b
      simp only [decimal, ht, List.cons.injEq] at h
      exact absurd h.1.symm (digitChar_ne_minus d hd)
    | negSucc b =>
      simp only [decimal, List.cons.injEq, true_and] at h
      have := congrArg digitsValue h
      simp only [digitsValue_decimalNat] at this
      have : a = b := by omega
      rw [this]

/-! ## Fixture names -/

theorem input_filename_ne_test (pfx : Str) (n : Int) :
    input_filename pfx ≠ input_filename_test pfx n := by
  intro h
  have := congrArg List.length h
  simp [input_filename, input_filename_test] at this

theorem output_filename_ne_test (pfx : Str) (n : Int) :
    output_filename pfx ≠ output_filename_test pfx n := by
  intro h
  have := congrArg List.length h
  simp [output_filename, output_filename_test] at this

theorem input_filename_ne_output_test (pfx : Str) (n : Int) :
    input_filename pfx ≠ output_filename_test pfx n := by
  intro h
  have := congrArg List.length h
  simp [input_filename, output_filename_test] at this

/-- C8: for a fixed prefix, the name of the user input file differs from every
numbered input name, the name of the user output file differs from every
numbered output name, and different test numbers give different numbered input
names and different numbered output names. -/
theorem fixture_names_distinct (pfx : Str) (n m : Int) :
    input_filename pfx ≠ input_filename_test pfx n
    ∧ output_filename pfx ≠ output_filename_test pfx n
    ∧ (n ≠ m → input_filename_test pfx n ≠ input_filename_test pfx m
        ∧ output_filename_test pfx n ≠ output_filename_test pfx m) := by
  refine ⟨input_filename_ne_test pfx n, output_filename_ne_test pfx n, fun hnm => ⟨?_, ?_⟩⟩
  · intro h
    simp only [input_filename_test, List.append_assoc, List.append_cancel_left_eq,
      List.append_cancel_right_eq] at h
    exact hnm (decimal_injective n m h)
  · intro h
    simp only [output_filename_test, List.append_assoc, List.append_cancel_left_eq,
      List.append_cancel_right_eq] at h
    exact hnm (decimal_injective n m h)

/-- C8 at prefix "t" and test numbers 1 and -1. -/
theorem fixture_names_distinct_witness :
    input_filename "t".toList ≠ input_filename_test "t".toList 1
    ∧ output_filename "t".toList ≠ output_filename_test "t".toList 1
    ∧ (1 : Int) ≠ -1
    ∧ input_filename_test "t".toList 1 ≠ input_filename_test "t".toList (-1)
    ∧ output_filename_test "t".toList 1 ≠ output_filename_test "t".toList (-1) :=
  ⟨(fixture_names_distinct "t".toList 1 (-1)).1, (fixture_names_distinct "t".toList 1 (-1)).2.1,
    by decide, (fixture_names_distinct "t".toList 1 (-1)).2.2 (by decide)⟩

/-! ## The copy loop -/

theorem withFinalNewline_append_newline (l r : Str) :
    withFinalNewline (l ++ '\n' :: r) = l ++ '\n' :: withFinalNewline r := by
  unfold withFinalNewline
  by_cases hr : r = []
  · subst hr
    simp
  · have h1 : (l ++ '\n' :: r).getLast? = r.getLast? := by
      rw [List.getLast?_append_of_ne_nil _ (by simp)]
      obtain ⟨c, cs, rfl⟩ := List.exists_cons_of_ne_nil hr
      simp
    simp only [h1, hr, false_or, List.append_eq_nil, List.cons_ne_nil, and_false]
    split <;> simp

theorem getLast_ne_newline (l : Str) (hl : '\n' ∉ l) : l.getLast? ≠ some '\n' := by
  intro h
  exact hl (List.mem_of_getLast?_eq_some h)

/-- The copy loop on a good stream, with a budget that covers the source, ends
and has written the source with a final newline. -/
theorem copyLines_good : ∀ (budget : Nat) (fin : IStream) (line written : Str),
    fin.eofbit = false → fin.failbit = false → fin.rest.length + 2 ≤ budget →
    copyLines budget fin line written = some (written ++ withFinalNewline fin.rest) := by
  intro budget
  induction budget with
  | zero => intro fin line written _ _ hb; omega
  | succ b ih =>
    intro fin line written he hf hb
    unfold copyLines
    rcases h : readLine fin.rest with ⟨l, _ | r⟩
    · obtain ⟨e, hl⟩ := readLine_none _ _ h
      rw [getline_last fin line l he hf e hl]
      by_cases hnil : l = []
      · subst hnil
        simp [e, withFinalNewline]
      · have hlen : 0 < l.length := List.length_pos.mpr hnil
        obtain ⟨b2, rfl⟩ : ∃ b2, b = b2 + 1 := ⟨b - 1, by rw [e] at hb; omega⟩
        have hfail : l.isEmpty = false := by
          cases l with
          | nil => exact absurd rfl hnil
          | cons _ _ => rfl
        simp only [hfail, Bool.not_false, if_true]
        unfold copyLines
        simp only [getline, Bool.true_or, if_true, Bool.not_true, Bool.false_eq_true,
          if_false]
        rw [e]
        simp [withFinalNewline, hnil, getLast_ne_newline l hl]
    · obtain ⟨e, hl⟩ := readLine_some _ _ _ h
      rw [getline_newline fin line l r he hf e hl]
      simp only [hf, Bool.not_false, if_true]
      rw [ih ⟨r, fin.eofbit, false⟩ l _ he rfl
        (by rw [e] at hb; simp at hb; simp; omega)]
      rw [e, withFinalNewline_append_newline]
      simp

/-! ## `CopyTest` -/

theorem CopyTest_of_open (fs : FileSystem) (pfx : Str) (test_number : Int) (source : Str)
    (hs : fs.file (input_filename_test pfx test_number) = some source)
    (hw : fs.writable (input_filename pfx) = true) :
    CopyTest fs pfx test_number
      = ((fs.put (input_filename pfx) []).put (input_filename pfx) (withFinalNewline source),
          .returned ()) := by
  unfold CopyTest
  simp only [hs, hw, if_true, Bool.not_true, Bool.false_eq_true, if_false]
  have h := copyLines_good (source.length + 2) (IStream.open source) [] [] rfl rfl (le_refl _)
  rw [h]
  simp [IStream.open]

theorem withFinalNewline_idem (s : Str) :
    withFinalNewline (withFinalNewline s) = withFinalNewline s := by
  by_cases h : s = [] ∨ s.getLast? = some '\n'
  · have : withFinalNewline s = s := by simp [withFinalNewline, h]
    rw [this, this]
  · have h1 : withFinalNewline s = s ++ ['\n'] := by simp [withFinalNewline, h]
    rw [h1]
    simp [withFinalNewline]

theorem fileLines_ne_nil (s : Str) : fileLines s ≠ [] := by
  rw [fileLines_eq_readLine]
  simp

theorem fileLines_of_no_newline (l : Str) (hl : '\n' ∉ l) : fileLines l = [l] := by
  rw [fileLines_eq_readLine, readLine_of_not_mem l hl]

theorem fileLines_append_newline (l r : Str) (hl : '\n' ∉ l) :
    fileLines (l ++ '\n' :: r) = l :: fileLines r := by
  rw [fileLines_eq_readLine, readLine_append_newline l r hl]

theorem textLines_append_newline (l r : Str) (hl : '\n' ∉ l) :
    textLines (l ++ '\n' :: r) = l :: textLines r := by
  unfold textLines
  rw [fileLines_append_newline l r hl]
  obtain ⟨x, xs, hx⟩ := List.exists_cons_of_ne_nil (fileLines_ne_nil r)
  rw [hx]
  simp only [List.getLast?_cons_cons, List.dropLast_cons₂]
  split <;> rfl

theorem textLines_terminated (lines : List Str) (h : ∀ l ∈ lines, '\n' ∉ l) :
    textLines (terminated lines) = lines := by
  induction lines with
  | nil => rfl
  | cons l ls ih =>
    simp only [terminated]
    rw [textLines_append_newline l _ (h l (by simp)),
      ih (fun x hx => h x (List.mem_cons_of_mem _ hx))]

theorem textLines_no_newline (s : Str) : ∀ l ∈ textLines s, '\n' ∉ l := by
  intro l hl
  unfold textLines at hl
  split at hl
  · exact fileLines_no_newline s l (List.mem_of_mem_dropLast hl)
  · exact fileLines_no_newline s l hl

/-- The lines of a text, each followed by one newline, make up the text with a
final newline. -/
theorem terminated_textLines : ∀ (n : Nat) (s : Str), s.length ≤ n →
    terminated (textLines s) = withFinalNewline s := by
  intro n
  induction n with
  | zero =>
    intro s hs
    have : s = [] := List.length_eq_zero.mp (by omega)
    subst this
    rfl
  | succ n ih =>
    intro s hs
    rcases hr : readLine s with ⟨l, _ | r⟩
    · obtain ⟨e, hl⟩ := readLine_none _ _ hr
      subst e
      unfold textLines
      rw [fileLines_of_no_newline s hl]
      by_cases hnil : s = []
      · subst hnil; rfl
      · have h1 : ¬ (some s = some ([] : Str)) := by simpa using hnil
        simp [terminated, withFinalNewline, hnil, getLast_ne_newline s hl]
    · obtain ⟨e, hl⟩ := readLine_some _ _ _ hr
      subst e
      rw [textLines_append_newline l r hl, withFinalNewline_append_newline]
      simp only [terminated]
      rw [ih r (by simp at hs; omega)]

/-- C7: when `prefix.n.in` opens with contents `source` and `prefix.in` opens for
writing, `CopyTest` succeeds and leaves in `prefix.in` the lines of the source in
their order, each followed by one newline: that is the source itself when the
source is empty or ends with a newline, and the source followed by one newline
otherwise; the copy has the same lines as the source, and copying from a file
that holds such a copy writes the same contents again. -/
theorem CopyTest_contents (fs : FileSystem) (pfx : Str) (test_number : Int) (source : Str)
    (hs : fs.file (input_filename_test pfx test_number) = some source)
    (hw : fs.writable (input_filename pfx) = true) :
    (CopyTest fs pfx test_number).2 = .returned ()
    ∧ (CopyTest fs pfx test_number).1.file (input_filename pfx)
        = some (terminated (textLines source))
    ∧ (CopyTest fs pfx test_number).1.file (input_filename pfx)
        = some (if source = [] ∨ source.getLast? = some '\n' then source
                else source ++ ['\n'])
    ∧ textLines (terminated (textLines source)) = textLines source
    ∧ ∀ (fs2 : FileSystem) (m : Int),
        fs2.file (input_filename_test pfx m)
          = (CopyTest fs pfx test_number).1.file (input_filename pfx) →
        fs2.writable (input_filename pfx) = true →
        (CopyTest fs2 pfx m).2 = .returned ()
        ∧ (CopyTest fs2 pfx m).1.file (input_filename pfx)
          = (CopyTest fs pfx test_number).1.file (input_filename pfx) := by
  rw [CopyTest_of_open fs pfx test_number source hs hw]
  have hfile : ((fs.put (input_filename pfx) []).put (input_filename pfx)
      (withFinalNewline source)).file (input_filename pfx) = some (withFinalNewline source) := by
    simp [FileSystem.put]
  refine ⟨rfl, ?_, ?_, textLines_terminated _ (textLines_no_newline source), ?_⟩
  · simp only [hfile]
    rw [terminated_textLines source.length source (le_refl _)]
  · simp only [hfile]; rfl
  · intro fs2 m h2 hw2
    simp only [hfile] at h2 ⊢
    rw [CopyTest_of_open fs2 pfx m _ h2 hw2]
    refine ⟨rfl, ?_⟩
    simp [FileSystem.put, withFinalNewline_idem]

/-- C7 at the source "5\n3" (no final newline), prefix "t", test 5: the copy is
"5\n3\n". -/
theorem CopyTest_contents_witness :
    (CopyTest (FileSystem.ofList [("t.5.in".toList, "5\n3".toList)]) "t".toList 5).2
      = .returned ()
    ∧ (CopyTest (FileSystem.ofList [("t.5.in".toList, "5\n3".toList)]) "t".toList 5).1.file
        (input_filename "t".toList) = some "5\n3\n".toList :=
  ⟨(CopyTest_contents (FileSystem.ofList [("t.5.in".toList, "5\n3".toList)]) "t".toList 5
      "5\n3".toList (by decide) (by decide)).1,
   ((CopyTest_contents (FileSystem.ofList [("t.5.in".toList, "5\n3".toList)]) "t".toList 5
      "5\n3".toList (by decide) (by decide)).2.2.1).trans (by decide)⟩

/-- C9: `CopyTest` changes no file other than `prefix.in`, so every numbered
fixture `prefix.n.in` and `prefix.n.out` holds after the call what it held
before, whether the call returned or raised, and which files can be opened for
writing is unchanged; `CheckTest` hands back the file system it was given. -/
theorem fixtures_never_written (fs : FileSystem) (pfx : Str) (i : Int) :
    (∀ name, name ≠ input_filename pfx → (CopyTest fs pfx i).1.file name = fs.file name)
    ∧ (∀ n : Int, (CopyTest fs pfx i).1.file (input_filename_test pfx n)
          = fs.file (input_filename_test pfx n)
        ∧ (CopyTest fs pfx i).1.file (output_filename_test pfx n)
          = fs.file (output_filename_test pfx n))
    ∧ (CopyTest fs pfx i).1.writable = fs.writable
    ∧ (CheckTest fs pfx i).1 = fs := by
  have key : ∀ name, name ≠ input_filename pfx →
      (CopyTest fs pfx i).1.file name = fs.file name := by
    intro name hne
    unfold CopyTest
    simp only
    split <;> split <;> (try split) <;> (try split) <;> simp [FileSystem.put, hne]
  refine ⟨key, fun n => ⟨key _ (input_filename_ne_test pfx n).symm,
    key _ (input_filename_ne_output_test pfx n).symm⟩, ?_, ?_⟩
  · unfold CopyTest
    simp only
    split <;> split <;> (try split) <;> (try split) <;> simp [FileSystem.put]
  · unfold CheckTest
    split
    · rfl
    · rfl
    · split <;> rfl

/-- C9 on the fixtures of tests 1 and 2 of prefix `t`: after `CopyTest` for
test 1 and after `CopyTest` for the missing test 3, which raises, the fixture
`t.2.out` holds what it held. -/
theorem fixtures_never_written_witness :
    (CopyTest twoFixtures "t".toList 1).1.file "t.2.out".toList
      = twoFixtures.file "t.2.out".toList
    ∧ (CopyTest twoFixtures "t".toList 3).1.file "t.2.out".toList
      = twoFixtures.file "t.2.out".toList :=
  ⟨(fixtures_never_written twoFixtures "t".toList 1).1 "t.2.out".toList (by decide),
   (fixtures_never_written twoFixtures "t".toList 3).1 "t.2.out".toList (by decide)⟩

/-! ## A differing pair of lines decides the verdict -/

theorem mismatchMessage_ne_verdicts (line_number : Int) (a b : Str) :
    mismatchMessage line_number a b ≠ endedEarlyMessage
    ∧ mismatchMessage line_number a b ≠ endedLateMessage
    ∧ mismatchMessage line_number a b ≠ correctMessage := by
  have h5 : (mismatchMessage line_number a b).get? 5 = some '\n' := rfl
  refine ⟨fun h => ?_, fun h => ?_, fun h => ?_⟩
  · rw [h] at h5; revert h5; decide
  · rw [h] at h5; revert h5; decide
  · rw [h] at h5; revert h5; decide

/-- The defect behind the evaluation for C1, in general: when the user output
is a run of newline-terminated lines and the expected output has the same lines
followed by a non-empty line, `CheckTest` returns a mismatch block with an empty
user line, never the ended-too-early verdict. -/
theorem CheckTest_missing_line_is_mismatch (fs : FileSystem) (pfx : Str) (test_number : Int)
    (pre : List Str) (l rest : Str) (hpre : ∀ x ∈ pre, '\n' ∉ x) (hl : '\n' ∉ l)
    (hne : l ≠ []) (hfu : fs.file (output_filename pfx) = some (terminated pre))
    (hfc : fs.file (output_filename_test pfx test_number)
      = some (terminated pre ++ l ++ '\n' :: rest)) :
    (CheckTest fs pfx test_number).2
      = .returned (mismatchMessage (nextLineNumber^[pre.length + 1] 0) [] l)
    ∧ (CheckTest fs pfx test_number).2 ≠ .returned endedEarlyMessage := by
  have h : (CheckTest fs pfx test_number).2
      = .returned (mismatchMessage (nextLineNumber^[pre.length + 1] 0) [] l) := by
    unfold CheckTest
    rw [hfu, hfc]
    simp only
    rw [compareStreams_common_lines [] l [] ('\n' :: rest) (by simp) hl (Or.inl rfl)
      (Or.inr ⟨rest, rfl⟩) (fun e => hne e.symm) pre hpre _ (IStream.open _) (IStream.open _) 0
      rfl rfl rfl rfl (by simp [IStream.open]) rfl
      (by have := terminated_length pre; omega)]
  refine ⟨h, ?_⟩
  rw [h]
  intro e
  exact (mismatchMessage_ne_verdicts _ _ _).1 (Outcome.returned.inj e)

/-- The defect behind the evaluation for C2, in general: when the expected
output is a run of newline-terminated lines and the user output has the same
lines followed by a non-empty line, `CheckTest` returns a mismatch block with an
empty expected line, never the ended-too-late verdict. -/
theorem CheckTest_extra_line_is_mismatch (fs : FileSystem) (pfx : Str) (test_number : Int)
    (pre : List Str) (l rest : Str) (hpre : ∀ x ∈ pre, '\n' ∉ x) (hl : '\n' ∉ l)
    (hne : l ≠ [])
    (hfu : fs.file (output_filename pfx) = some (terminated pre ++ l ++ '\n' :: rest))
    (hfc : fs.file (output_filename_test pfx test_number) = some (terminated pre)) :
    (CheckTest fs pfx test_number).2
      = .returned (mismatchMessage (nextLineNumber^[pre.length + 1] 0) l [])
    ∧ (CheckTest fs pfx test_number).2 ≠ .returned endedLateMessage := by
  have h : (CheckTest fs pfx test_number).2
      = .returned (mismatchMessage (nextLineNumber^[pre.length + 1] 0) l []) := by
    unfold CheckTest
    rw [hfu, hfc]
    simp only
    rw [compareStreams_common_lines l [] ('\n' :: rest) [] hl (by simp) (Or.inr ⟨rest, rfl⟩)
      (Or.inl rfl) hne pre hpre _ (IStream.open _) (IStream.open _) 0
      rfl rfl rfl rfl rfl (by simp [IStream.open])
      (by have := terminated_length pre; simp only [List.length_append]; omega)]
  refine ⟨h, ?_⟩
  rw [h]
  intro e
  exact (mismatchMessage_ne_verdicts _ _ _).2.1 (Outcome.returned.inj e)

/-- When line `j + 1` is the first line on which the two texts differ, the
comparison of the two files yields the mismatch block carrying these two
lines, numbered by the counter after `j + 1` increments. -/
theorem compareStreams_first_difference (user correct : Str) (j : Nat) (a b : Str)
    (ha : (fileLines user)[j]? = some a) (hb : (fileLines correct)[j]? = some b)
    (hne : a ≠ b) (hbefore : ∀ i < j, (fileLines user)[i]? = (fileLines correct)[i]?) :
    compareStreams (user.length + 2) (IStream.open user) (IStream.open correct) 0
      = some (mismatchMessage (nextLineNumber^[j + 1] 0) a b) := by
  obtain ⟨ra, hu, hra⟩ := fileLines_split j user a ha
  obtain ⟨rb, hc, hrb⟩ := fileLines_split j correct b hb
  have hju : j < (fileLines user).length := by
    by_contra hlt
    rw [List.getElem?_eq_none (by omega)] at ha
    cases ha
  have hjc : j < (fileLines correct).length := by
    by_contra hlt
    rw [List.getElem?_eq_none (by omega)] at hb
    cases hb
  have htake : (fileLines correct).take j = (fileLines user).take j := by
    apply List.ext_getElem?
    intro i
    by_cases hi : i < j
    · rw [List.getElem?_take_of_lt hi, List.getElem?_take_of_lt hi, hbefore i hi]
    · rw [List.getElem?_eq_none (by simp; omega), List.getElem?_eq_none (by simp; omega)]
  rw [htake] at hc
  have hlen : ((fileLines user).take j).length = j := by
    rw [List.length_take]; omega
  have hno : ∀ l ∈ (fileLines user).take j, '\n' ∉ l :=
    fun l hl => fileLines_no_newline user l (List.mem_of_mem_take hl)
  have := compareStreams_common_lines a b ra rb
    (fileLines_no_newline user a (List.mem_iff_getElem?.mpr ⟨j, ha⟩))
    (fileLines_no_newline correct b (List.mem_iff_getElem?.mpr ⟨j, hb⟩)) hra hrb hne
    ((fileLines user).take j) hno (user.length + 2) (IStream.open user) (IStream.open correct)
    0 rfl rfl rfl rfl hu hc
    (by
      have h1 := terminated_length ((fileLines user).take j)
      have h2 : (terminated ((fileLines user).take j)).length ≤ user.length := by
        nth_rewrite 2 [hu]
        simp only [List.length_append]
        omega
      omega)
  rw [hlen] at this
  exact this

/-- C10: for the two files `CheckTest` compares, line by line as `getline`
delivers them: if line `j + 1` is the first on which they differ, `CheckTest`
returns the mismatch block for that line (numbered `j + 1`, taken below `2^31`
as the counter is a 32-bit `int`), also when that line is the last one of either
file; and if `CheckTest` returns the ended-too-early, the ended-too-late or the
CORRECT verdict, every line present in both files is the same in both. -/
theorem CheckTest_mismatch_before_end (fs : FileSystem) (pfx : Str) (test_number : Int)
    (user correct : Str) (hu : fs.file (output_filename pfx) = some user)
    (hc : fs.file (output_filename_test pfx test_number) = some correct) :
    (∀ (j : Nat) (a b : Str), (fileLines user)[j]? = some a →
        (fileLines correct)[j]? = some b → a ≠ b →
        (∀ i < j, (fileLines user)[i]? = (fileLines correct)[i]?) →
        j + 1 < 2147483648 →
        (CheckTest fs pfx test_number).2 = .returned (mismatchMessage (j + 1) a b))
    ∧ (((CheckTest fs pfx test_number).2
            = .returned "wrong: user output ended too early\n".toList
          ∨ (CheckTest fs pfx test_number).2
            = .returned "wrong: user ouput ended too late\n".toList
          ∨ (CheckTest fs pfx test_number).2 = .returned "CORRECT\n".toList) →
        ∀ (j : Nat) (a b : Str), (fileLines user)[j]? = some a →
          (fileLines correct)[j]? = some b → a = b) := by
  have hres : ∀ (j : Nat) (a b : Str), (fileLines user)[j]? = some a →
      (fileLines correct)[j]? = some b → a ≠ b →
      (∀ i < j, (fileLines user)[i]? = (fileLines correct)[i]?) →
      (CheckTest fs pfx test_number).2
        = .returned (mismatchMessage (nextLineNumber^[j + 1] 0) a b) := by
    intro j a b ha hb hne hbefore
    unfold CheckTest
    rw [hu, hc]
    simp only
    rw [compareStreams_first_difference user correct j a b ha hb hne hbefore]
  refine ⟨?_, ?_⟩
  · intro j a b ha hb hne hbefore hj
    rw [hres j a b ha hb hne hbefore,
      nextLineNumber_iterate (j + 1) 0 (le_refl _) (by push_cast; omega)]
    simp
  · intro hverdict j a b ha hb
    by_contra hne
    have hex : ∃ j, ∃ a b, (fileLines user)[j]? = some a ∧ (fileLines correct)[j]? = some b
        ∧ a ≠ b := ⟨j, a, b, ha, hb, hne⟩
    classical
    obtain ⟨a0, b0, ha0, hb0, hne0⟩ := Nat.find_spec hex
    have hbefore : ∀ i < Nat.find hex, (fileLines user)[i]? = (fileLines correct)[i]? := by
      intro i hi
      have hmin := Nat.find_min hex hi
      have hiu : i < (fileLines user).length := by
        by_contra hlt
        rw [List.getElem?_eq_none (by omega)] at ha0
        cases ha0
      have hic : i < (fileLines correct).length := by
        by_contra hlt
        rw [List.getElem?_eq_none (by omega)] at hb0
        cases hb0
      rw [List.getElem?_eq_getElem hiu, List.getElem?_eq_getElem hic]
      by_contra hd
      exact hmin ⟨_, _, List.getElem?_eq_getElem hiu, List.getElem?_eq_getElem hic,
        fun e => hd (by rw [e])⟩
    have h := hres _ a0 b0 ha0 hb0 hne0 hbefore
    obtain ⟨n1, n2, n3⟩ := mismatchMessage_ne_verdicts (nextLineNumber^[Nat.find hex + 1] 0) a0 b0
    rw [h] at hverdict
    rcases hverdict with hv | hv | hv
    · exact n1 (Outcome.returned.inj hv)
    · exact n2 (Outcome.returned.inj hv)
    · exact n3 (Outcome.returned.inj hv)

/-- C10 at user output "a" against expected output "b\nc": the first pass reads
"a" and "b" and exhausts the user file; the verdict is the mismatch at line 1. -/
theorem CheckTest_mismatch_before_end_witness :
    (CheckTest (FileSystem.ofList [("t.out".toList, "a".toList),
        ("t.1.out".toList, "b\nc".toList)]) "t".toList 1).2
      = .returned (mismatchMessage ((0 : Nat) + 1) "a".toList "b".toList) :=
  (CheckTest_mismatch_before_end (FileSystem.ofList [("t.out".toList, "a".toList),
      ("t.1.out".toList, "b\nc".toList)]) "t".toList 1 "a".toList "b\nc".toList
      (by decide) (by decide)).1 0 "a".toList "b".toList (by decide) (by decide) (by decide)
    (by intro i hi; omega) (by decide)

/-! ## One test -/

theorem CheckTest_fst (fs : FileSystem) (pfx : Str) (i : Int) : (CheckTest fs pfx i).1 = fs := by
  unfold CheckTest
  split
  · rfl
  · rfl
  · split <;> rfl

theorem CheckTest_ne_unfinished (fs : FileSystem) (pfx : Str) (i : Int) :
    (CheckTest fs pfx i).2 ≠ .unfinished := by
  unfold CheckTest
  split
  · simp
  · simp
  · rename_i user correct _ _
    have h := compareStreams_isSome (user.length + 2) (IStream.open user)
      (IStream.open correct) 0 (Or.inr rfl) (by rw [passesLeft_open])
    split
    · simp
    · rename_i hnone
      rw [hnone] at h
      cases h

theorem CopyTest_ne_unfinished (fs : FileSystem) (pfx : Str) (i : Int) :
    (CopyTest fs pfx i).2 ≠ .unfinished := by
  rcases hs : fs.file (input_filename_test pfx i) with _ | source
  · unfold CopyTest
    simp [hs]
  · cases hw : fs.writable (input_filename pfx)
    · unfold CopyTest
      simp [hs, hw]
    · rw [CopyTest_of_open fs pfx i source hs hw]
      simp

/-- A test in which nothing raises returns the report built from the verdict of
`CheckTest`, and leaves the files as the tested program left them. -/
theorem PerformTest_of_not_raises (run : FileSystem → FileSystem) (fs : FileSystem)
    (pfx : Str) (i : Int) (h : raisesAt run fs pfx i = false) :
    ∃ verdict, (CheckTest (run (CopyTest fs pfx i).1) pfx i).2 = .returned verdict
      ∧ PerformTest run fs pfx i
        = (run (CopyTest fs pfx i).1,
            .returned ("Test #".toList ++ decimal i ++ ": ".toList ++ verdict)) := by
  unfold raisesAt at h
  simp only [Bool.or_eq_false_iff] at h
  obtain ⟨h1, h2⟩ := h
  have hcopy : (CopyTest fs pfx i).2 = .returned () := by
    have hne := CopyTest_ne_unfinished fs pfx i
    cases hc : (CopyTest fs pfx i).2 with
    | returned u => rfl
    | thrown w => rw [hc] at h1; cases h1
    | unfinished => exact absurd hc hne
  have hne2 := CheckTest_ne_unfinished (run (CopyTest fs pfx i).1) pfx i
  have hfst := CheckTest_fst (run (CopyTest fs pfx i).1) pfx i
  cases hc2 : (CheckTest (run (CopyTest fs pfx i).1) pfx i).2 with
  | thrown w => rw [hc2] at h2; cases h2
  | unfinished => exact absurd hc2 hne2
  | returned verdict =>
    refine ⟨verdict, rfl, ?_⟩
    unfold PerformTest
    have e1 : CopyTest fs pfx i = ((CopyTest fs pfx i).1, .returned ()) := by
      rw [← hcopy]
    have e2 : CheckTest (run (CopyTest fs pfx i).1) pfx i
        = (run (CopyTest fs pfx i).1, .returned verdict) := Prod.ext hfst hc2
    rw [e1]
    simp only
    rw [e2]

/-- A test in which `CopyTest` or `CheckTest` raises ends by throwing. -/
theorem PerformTest_of_raises (run : FileSystem → FileSystem) (fs : FileSystem)
    (pfx : Str) (i : Int) (h : raisesAt run fs pfx i = true) :
    ∃ what, (PerformTest run fs pfx i).2 = .thrown what := by
  unfold raisesAt at h
  have hne := CopyTest_ne_unfinished fs pfx i
  cases hc : (CopyTest fs pfx i).2 with
  | thrown w =>
    refine ⟨w, ?_⟩
    unfold PerformTest
    have e1 : CopyTest fs pfx i = ((CopyTest fs pfx i).1, .thrown w) := by rw [← hc]
    rw [e1]
  | unfinished => exact absurd hc hne
  | returned u =>
    rw [hc] at h
    simp only [Outcome.raised, Bool.false_or] at h
    cases hc2 : (CheckTest (run (CopyTest fs pfx i).1) pfx i).2 with
    | returned v => rw [hc2] at h; cases h
    | unfinished => exact absurd hc2 (CheckTest_ne_unfinished _ _ _)
    | thrown w =>
      refine ⟨w, ?_⟩
      unfold PerformTest
      have e1 : CopyTest fs pfx i = ((CopyTest fs pfx i).1, .returned ()) := by rw [← hc]
      have e2 : CheckTest (run (CopyTest fs pfx i).1) pfx i
          = ((CheckTest (run (CopyTest fs pfx i).1) pfx i).1, .thrown w) := by rw [← hc2]
      rw [e1]
      simp only
      rw [e2]

/-! ## The test loop -/

/-- One pass of the loop on a test in which nothing raises. -/
theorem testLoop_step (run : FileSystem → FileSystem) (pfx : Str) (tests : Int)
    (fs : FileSystem) (j b : Nat) (cout : List Str)
    (hr : raisesAt run (stateBefore run pfx fs j) pfx ((j : Int) + 1) = false)
    (hle : (j : Int) + 1 ≤ tests) (hfit : (j : Int) + 2 < 2147483648) :
    testLoop run pfx tests (b + 1) (stateBefore run pfx fs j) ((j : Int) + 1) cout
      = testLoop run pfx tests b (stateBefore run pfx fs (j + 1)) (((j + 1 : Nat) : Int) + 1)
          (cout ++ [reportAt run pfx fs j]) := by
  obtain ⟨verdict, _, hp⟩ := PerformTest_of_not_raises run _ pfx _ hr
  have hw : wrapInt ((j : Int) + 1 + 1) = ((j + 1 : Nat) : Int) + 1 := by
    rw [wrapInt_of_range _ (by omega) (by omega)]
    push_cast
    ring
  have hs : stateBefore run pfx fs (j + 1)
      = run (CopyTest (stateBefore run pfx fs j) pfx ((j : Int) + 1)).1 := by
    simp only [stateBefore]
    rw [hp]
  have hrep : reportAt run pfx fs j
      = "Test #".toList ++ decimal ((j : Int) + 1) ++ ": ".toList ++ verdict ++ "\n".toList := by
    unfold reportAt
    rw [hp]
  rw [testLoop]
  simp only [hle, if_true]
  rw [hp]
  simp only
  rw [hw, hs, hrep]

/-- After `d` tests in a row in which nothing raises, the loop has written their
reports and stands before the next test. -/
theorem testLoop_advance (run : FileSystem → FileSystem) (pfx : Str) (tests : Int)
    (fs : FileSystem) : ∀ (d j budget : Nat) (cout : List Str),
    (∀ i, j ≤ i → i < j + d →
      raisesAt run (stateBefore run pfx fs i) pfx ((i : Int) + 1) = false) →
    (d = 0 ∨ ((j + d : Nat) : Int) ≤ tests) → ((j + d : Nat) : Int) + 1 < 2147483648 →
    d ≤ budget →
    testLoop run pfx tests budget (stateBefore run pfx fs j) ((j : Int) + 1) cout
      = testLoop run pfx tests (budget - d) (stateBefore run pfx fs (j + d))
          (((j + d : Nat) : Int) + 1) (cout ++ (List.range' j d).map (reportAt run pfx fs)) := by
  intro d
  induction d with
  | zero => intro j budget cout _ _ _ _; simp
  | succ d ih =>
    intro j budget cout hr hle hfit hb
    obtain ⟨b, rfl⟩ : ∃ b, budget = b + 1 := ⟨budget - 1, by omega⟩
    have hle : ((j + (d + 1) : Nat) : Int) ≤ tests := by
      rcases hle with h | h
      · omega
      · exact h
    rw [testLoop_step run pfx tests fs j b cout (hr j (le_refl _) (by omega))
      (by push_cast at hle; omega) (by push_cast at hfit; omega)]
    rw [ih (j + 1) b _ (fun i h1 h2 => hr i (by omega) (by omega))
      (Or.inr (by push_cast at hle ⊢; omega)) (by push_cast at hfit ⊢; omega) (by omega)]
    have e1 : j + 1 + d = j + (d + 1) := by omega
    have e2 : b + 1 - (d + 1) = b - d := by omega
    rw [e1, e2, List.range'_succ]
    simp

theorem reportAt_of_not_raises (run : FileSystem → FileSystem) (pfx : Str) (fs : FileSystem)
    (j : Nat) (hr : raisesAt run (stateBefore run pfx fs j) pfx ((j : Int) + 1) = false) :
    ∃ verdict, (CheckTest (run (CopyTest (stateBefore run pfx fs j) pfx ((j : Int) + 1)).1)
        pfx ((j : Int) + 1)).2 = .returned verdict
      ∧ reportAt run pfx fs j
        = "Test #".toList ++ decimal ((j : Int) + 1) ++ ": ".toList ++ verdict ++ "\n".toList := by
  obtain ⟨verdict, hv, hp⟩ := PerformTest_of_not_raises run _ pfx _ hr
  refine ⟨verdict, hv, ?_⟩
  unfold reportAt
  rw [hp]

/-- C6: the reports of the test loop, for a test count that is a 32-bit `int`.
Piece `j` of the output (counting from 0) is the report of test `j + 1`, so the
reports come in the order 1, 2, ...  If neither `CopyTest` nor `CheckTest` raises
in any test up to `tests`, the loop returns after exactly one report for each of
the tests 1 to `tests` (none when `tests ≤ 0`); this part is stated for
`tests < 2^31 - 1`, since at `tests = 2^31 - 1` the last `++i` leaves the range
of `int`.  If test `k + 1` is the first in which one of them raises, the loop ends
by throwing after exactly the reports of the tests 1 to `k`. -/
theorem testLoop_reports (run : FileSystem → FileSystem) (pfx : Str) (tests : Int)
    (fs : FileSystem) (hint : tests < 2147483648) :
    (tests < 2147483647 →
      (∀ j : Nat, (j : Int) < tests →
        raisesAt run (stateBefore run pfx fs j) pfx ((j : Int) + 1) = false) →
      (runTests run pfx tests fs).outcome = .returned ()
      ∧ (runTests run pfx tests fs).cout.length = tests.toNat
      ∧ ∀ j : Nat, j < tests.toNat →
          ∃ verdict,
            (CheckTest (run (CopyTest (stateBefore run pfx fs j) pfx ((j : Int) + 1)).1)
              pfx ((j : Int) + 1)).2 = .returned verdict
            ∧ (runTests run pfx tests fs).cout[j]?
              = some ("Test #".toList ++ decimal ((j : Int) + 1) ++ ": ".toList ++ verdict
                  ++ "\n".toList))
    ∧ (∀ k : Nat, (k : Int) < tests →
      (∀ j : Nat, j < k →
        raisesAt run (stateBefore run pfx fs j) pfx ((j : Int) + 1) = false) →
      raisesAt run (stateBefore run pfx fs k) pfx ((k : Int) + 1) = true →
      (∃ what, (runTests run pfx tests fs).outcome = .thrown what)
      ∧ (runTests run pfx tests fs).cout.length = k
      ∧ ∀ j : Nat, j < k →
          ∃ verdict,
            (CheckTest (run (CopyTest (stateBefore run pfx fs j) pfx ((j : Int) + 1)).1)
              pfx ((j : Int) + 1)).2 = .returned verdict
            ∧ (runTests run pfx tests fs).cout[j]?
              = some ("Test #".toList ++ decimal ((j : Int) + 1) ++ ": ".toList ++ verdict
                  ++ "\n".toList)) := by
  have hpiece : ∀ (m : Nat) (cout : List Str),
      cout = (List.range' 0 m).map (reportAt run pfx fs) →
      (∀ j : Nat, j < m →
        raisesAt run (stateBefore run pfx fs j) pfx ((j : Int) + 1) = false) →
      cout.length = m ∧ ∀ j : Nat, j < m →
        ∃ verdict,
          (CheckTest (run (CopyTest (stateBefore run pfx fs j) pfx ((j : Int) + 1)).1)
            pfx ((j : Int) + 1)).2 = .returned verdict
          ∧ cout[j]? = some ("Test #".toList ++ decimal ((j : Int) + 1) ++ ": ".toList
              ++ verdict ++ "\n".toList) := by
    intro m cout hc hr
    subst hc
    refine ⟨by simp, fun j hj => ?_⟩
    obtain ⟨verdict, hv, hrep⟩ := reportAt_of_not_raises run pfx fs j (hr j hj)
    refine ⟨verdict, hv, ?_⟩
    rw [List.getElem?_map, List.getElem?_range' _ _ hj]
    simp [hrep]
  constructor
  · intro hmax hr
    have hr2 : ∀ j : Nat, j < tests.toNat →
        raisesAt run (stateBefore run pfx fs j) pfx ((j : Int) + 1) = false :=
      fun j hj => hr j (by omega)
    have hadv := testLoop_advance run pfx tests fs tests.toNat 0 (tests.toNat + 1) []
      (fun i _ h2 => hr2 i (by omega)) (by omega) (by omega) (by omega)
    have hrun : runTests run pfx tests fs
        = { fs := stateBefore run pfx fs (0 + tests.toNat),
            cout := (List.range' 0 tests.toNat).map (reportAt run pfx fs),
            outcome := .returned () } := by
      unfold runTests
      have h0 : stateBefore run pfx fs 0 = fs := rfl
      have h1 : ((0 : Nat) : Int) + 1 = 1 := by simp
      rw [h0, h1] at hadv
      rw [hadv]
      have e : tests.toNat + 1 - tests.toNat = 0 + 1 := by omega
      rw [e, testLoop]
      have hgt : ¬ (((0 + tests.toNat : Nat) : Int) + 1 ≤ tests) := by omega
      simp only [hgt, if_false, List.nil_append]
    rw [hrun]
    obtain ⟨h1, h2⟩ := hpiece tests.toNat _ rfl hr2
    exact ⟨rfl, h1, h2⟩
  · intro k hk hr hraise
    have hadv := testLoop_advance run pfx tests fs k 0 (tests.toNat + 1) []
      (fun i _ h2 => hr i (by omega)) (Or.inr (by omega)) (by omega) (by omega)
    obtain ⟨what, hwhat⟩ := PerformTest_of_raises run _ pfx _ hraise
    have hrun : (runTests run pfx tests fs).outcome = .thrown what
        ∧ (runTests run pfx tests fs).cout
          = (List.range' 0 k).map (reportAt run pfx fs) := by
      unfold runTests
      have h0 : stateBefore run pfx fs 0 = fs := rfl
      have h1 : ((0 : Nat) : Int) + 1 = 1 := by simp
      rw [h0, h1] at hadv
      rw [hadv]
      obtain ⟨b, hb⟩ : ∃ b, tests.toNat + 1 - k = b + 1 := ⟨tests.toNat - k, by omega⟩
      rw [hb, testLoop]
      have hle : ((0 + k : Nat) : Int) + 1 ≤ tests := by omega
      simp only [hle, if_true]
      have e0 : 0 + k = k := by omega
      rw [e0]
      cases hp : PerformTest run (stateBefore run pfx fs k) pfx ((k : Int) + 1) with
      | mk fs1 out =>
        rw [hp] at hwhat
        simp only at hwhat
        subst hwhat
        exact ⟨rfl, List.nil_append _⟩
    obtain ⟨h1, h2⟩ := hpiece k _ hrun.2 hr
    exact ⟨⟨what, hrun.1⟩, h1, h2⟩

/-- C6 with three tests asked for and `t.3.in` missing: the loop throws after
the reports of tests 1 and 2. -/
theorem testLoop_reports_witness :
    (∃ what, (runTests copyProgram "t".toList 3 twoFixtures).outcome = .thrown what)
    ∧ (runTests copyProgram "t".toList 3 twoFixtures).cout.length = 2 :=
  ⟨((testLoop_reports copyProgram "t".toList 3 twoFixtures (by decide)).2 2 (by decide)
      (by intro j hj; interval_cases j <;> decide) (by decide)).1,
   ((testLoop_reports copyProgram "t".toList 3 twoFixtures (by decide)).2 2 (by decide)
      (by intro j hj; interval_cases j <;> decide) (by decide)).2.1⟩

/-! ## `ends_with` and `CompileSource` -/

theorem rangeEqual_iff_prefix : ∀ (a b : Str), rangeEqual a b = true ↔ a <+: b := by
  intro a
  induction a with
  | nil => intro b; simp [rangeEqual]
  | cons x xs ih =>
    intro b
    cases b with
    | nil => simp [rangeEqual]
    | cons y ys =>
      simp only [rangeEqual, Bool.and_eq_true, beq_iff_eq, ih ys, List.cons_prefix_cons]

/-- The function `ends_with` decides whether `ending` is a suffix of `str`. -/
theorem ends_with_iff_suffix (str ending : Str) :
    ends_with str ending = true ↔ ending <:+ str := by
  unfold ends_with
  by_cases h : ending.length > str.length
  · simp only [h, if_true, Bool.false_eq_true, false_iff]
    intro hs
    have := hs.length_le
    omega
  · simp only [h, if_false, rangeEqual_iff_prefix, List.reverse_prefix]

/-- C11: `CompileSource` dispatches on the suffix of the source name.  A name
ending in ".c" launches the C compiler of the build, once, with parameters
"-Wall -Werror <name> -o <executable>"; a name not ending in ".c" but ending in
".cpp" or ".cc" launches the C++ compiler, once, with parameters
"-Wall -Werror -std=c++11 <name> -o <executable>"; for every other name
`invalid_argument` is thrown with the text "<name> does not have a supported file
extension", no process is launched and the files are left alone. -/
theorem CompileSource_dispatch (b : Build) (exec : Str → Str → FileSystem → FileSystem)
    (m : Machine) (source_name : Str) :
    (".c".toList <:+ source_name →
      CompileSource b exec m source_name
        = ({ fs := exec b.c_compiler
                ("-Wall -Werror ".toList ++ source_name ++ " -o ".toList ++ b.kExecutableName)
                m.fs,
             launched := m.launched ++ [(b.c_compiler,
                "-Wall -Werror ".toList ++ source_name ++ " -o ".toList
                  ++ b.kExecutableName)] }, .ok ()))
    ∧ (¬ ".c".toList <:+ source_name →
        (".cpp".toList <:+ source_name ∨ ".cc".toList <:+ source_name) →
        CompileSource b exec m source_name
          = ({ fs := exec b.cpp_compiler
                  ("-Wall -Werror -std=c++11 ".toList ++ source_name ++ " -o ".toList
                    ++ b.kExecutableName) m.fs,
               launched := m.launched ++ [(b.cpp_compiler,
                  "-Wall -Werror -std=c++11 ".toList ++ source_name ++ " -o ".toList
                    ++ b.kExecutableName)] }, .ok ()))
    ∧ (¬ ".c".toList <:+ source_name → ¬ ".cpp".toList <:+ source_name →
        ¬ ".cc".toList <:+ source_name →
        CompileSource b exec m source_name
          = (m, .error (source_name ++ " does not have a supported file extension".toList))) := by
  refine ⟨fun hc => ?_, fun hc hcpp => ?_, fun hc hcpp hcc => ?_⟩
  · have h := (ends_with_iff_suffix source_name ".c".toList).mpr hc
    simp only [CompileSource, h, if_true, RunAndWait]
  · have h : ends_with source_name ".c".toList = false := by
      rw [Bool.eq_false_iff]
      exact fun e => hc ((ends_with_iff_suffix _ _).mp e)
    have h2 : (ends_with source_name ".cpp".toList || ends_with source_name ".cc".toList)
        = true := by
      rw [Bool.or_eq_true]
      rcases hcpp with e | e
      · exact Or.inl ((ends_with_iff_suffix _ _).mpr e)
      · exact Or.inr ((ends_with_iff_suffix _ _).mpr e)
    simp only [CompileSource, h, h2, if_true, Bool.false_eq_true, if_false, RunAndWait]
  · have h : ends_with source_name ".c".toList = false := by
      rw [Bool.eq_false_iff]
      exact fun e => hc ((ends_with_iff_suffix _ _).mp e)
    have h2 : ends_with source_name ".cpp".toList = false := by
      rw [Bool.eq_false_iff]
      exact fun e => hcpp ((ends_with_iff_suffix _ _).mp e)
    have h3 : ends_with source_name ".cc".toList = false := by
      rw [Bool.eq_false_iff]
      exact fun e => hcc ((ends_with_iff_suffix _ _).mp e)
    simp only [CompileSource, h, h2, h3, Bool.or_self, Bool.false_eq_true, if_false]

/-- C11 on the Linux build with nothing launched before: "prog.cc" launches
`/usr/bin/g++`, and "prog.py" throws without launching anything. -/
theorem CompileSource_dispatch_witness :
    (CompileSource Build.linux (fun _ _ fs => fs) { fs := twoFixtures, launched := [] }
        "prog.cc".toList).1.launched
      = [("/usr/bin/g++".toList,
          "-Wall -Werror -std=c++11 prog.cc -o supercalifragilistic".toList)]
    ∧ (CompileSource Build.linux (fun _ _ fs => fs) { fs := twoFixtures, launched := [] }
        "prog.py".toList).1.launched = [] :=
  ⟨(congrArg (fun r => r.1.launched)
      ((CompileSource_dispatch Build.linux (fun _ _ fs => fs)
        { fs := twoFixtures, launched := [] } "prog.cc".toList).2.1
        (by decide) (Or.inr (by decide)))).trans (by decide),
   congrArg (fun r => r.1.launched)
      ((CompileSource_dispatch Build.linux (fun _ _ fs => fs)
        { fs := twoFixtures, launched := [] } "prog.py".toList).2.2
        (by decide) (by decide) (by decide))⟩

/-! ## When `CheckTest` and `CopyTest` raise -/

/-- With both files open, `CheckTest` returns the message of the comparison. -/
theorem CheckTest_of_open (fs : FileSystem) (pfx : Str) (test_number : Int)
    (user correct : Str) (hu : fs.file (output_filename pfx) = some user)
    (hc : fs.file (output_filename_test pfx test_number) = some correct) :
    ∃ verdict, compareStreams (user.length + 2) (IStream.open user) (IStream.open correct) 0
        = some verdict
      ∧ CheckTest fs pfx test_number = (fs, .returned verdict) := by
  have h := compareStreams_isSome (user.length + 2) (IStream.open user)
    (IStream.open correct) 0 (Or.inr rfl) (by rw [passesLeft_open])
  obtain ⟨verdict, hv⟩ := Option.isSome_iff_exists.mp h
  refine ⟨verdict, hv, ?_⟩
  unfold CheckTest
  rw [hu, hc]
  simp only
  rw [hv]

/-- C14: `CheckTest` raises exactly when `prefix.out` or `prefix.n.out` does not
open; the error is "Could not open user output file" exactly when `prefix.out`
does not open (also when neither opens), and "Could not open correct output
file" exactly when `prefix.out` opens and `prefix.n.out` does not; when both
open, `CheckTest` returns a verdict. -/
theorem CheckTest_raises_iff (fs : FileSystem) (pfx : Str) (test_number : Int) :
    ((∃ what, (CheckTest fs pfx test_number).2 = .thrown what)
      ↔ (fs.file (output_filename pfx) = none
          ∨ fs.file (output_filename_test pfx test_number) = none))
    ∧ ((CheckTest fs pfx test_number).2 = .thrown "Could not open user output file".toList
      ↔ fs.file (output_filename pfx) = none)
    ∧ ((CheckTest fs pfx test_number).2
          = .thrown "Could not open correct output file".toList
      ↔ (fs.file (output_filename pfx) ≠ none
          ∧ fs.file (output_filename_test pfx test_number) = none))
    ∧ (fs.file (output_filename pfx) ≠ none →
        fs.file (output_filename_test pfx test_number) ≠ none →
        ∃ verdict, (CheckTest fs pfx test_number).2 = .returned verdict) := by
  rcases hu : fs.file (output_filename pfx) with _ | user
  · have h : (CheckTest fs pfx test_number).2
        = .thrown "Could not open user output file".toList := by
      unfold CheckTest
      rw [hu]
    rw [h]
    refine ⟨⟨fun _ => Or.inl rfl, fun _ => ⟨_, rfl⟩⟩, ⟨fun _ => rfl, fun _ => rfl⟩, ?_, ?_⟩
    · constructor
      · intro e
        exact absurd (Outcome.thrown.inj e) (by decide)
      · intro e
        exact absurd rfl e.1
    · intro e
      exact absurd rfl e
  · rcases hc : fs.file (output_filename_test pfx test_number) with _ | correct
    · have h : (CheckTest fs pfx test_number).2
          = .thrown "Could not open correct output file".toList := by
        unfold CheckTest
        rw [hu, hc]
      rw [h]
      refine ⟨⟨fun _ => Or.inr rfl, fun _ => ⟨_, rfl⟩⟩, ?_, ⟨fun _ => ⟨by simp, rfl⟩, fun _ => rfl⟩,
        ?_⟩
      · constructor
        · intro e
          exact absurd (Outcome.thrown.inj e) (by decide)
        · intro e
          cases e
      · intro _ e
        exact absurd rfl e
    · obtain ⟨verdict, _, hv⟩ := CheckTest_of_open fs pfx test_number user correct hu hc
      rw [hv]
      refine ⟨⟨?_, ?_⟩, ⟨?_, ?_⟩, ⟨?_, ?_⟩, fun _ _ => ⟨verdict, rfl⟩⟩
      · rintro ⟨what, e⟩
        cases e
      · rintro (e | e) <;> cases e
      · intro e
        cases e
      · intro e
        cases e
      · intro e
        cases e
      · intro e
        cases e.2

/-- C14 on the fixtures of prefix `t`, where `t.out` does not exist: test 1
raises the user output error. -/
theorem CheckTest_raises_iff_witness :
    (CheckTest twoFixtures "t".toList 1).2
      = .thrown "Could not open user output file".toList :=
  (CheckTest_raises_iff twoFixtures "t".toList 1).2.1.mpr (by decide)

/-- C15: `CopyTest` raises "Could not open test input file" exactly when
`prefix.n.in` does not open; when it opens, `CopyTest` raises "Could not open user
input file" exactly when `prefix.in` does not open for writing; and `CopyTest`
returns exactly when both open. -/
theorem CopyTest_raises_iff (fs : FileSystem) (pfx : Str) (test_number : Int) :
    ((CopyTest fs pfx test_number).2 = .thrown "Could not open test input file".toList
      ↔ fs.file (input_filename_test pfx test_number) = none)
    ∧ (fs.file (input_filename_test pfx test_number) ≠ none →
        ((CopyTest fs pfx test_number).2 = .thrown "Could not open user input file".toList
          ↔ fs.writable (input_filename pfx) = false))
    ∧ ((CopyTest fs pfx test_number).2 = .returned ()
      ↔ (fs.file (input_filename_test pfx test_number) ≠ none
          ∧ fs.writable (input_filename pfx) = true)) := by
  rcases hs : fs.file (input_filename_test pfx test_number) with _ | source
  · have h : (CopyTest fs pfx test_number).2
        = .thrown "Could not open test input file".toList := by
      unfold CopyTest
      simp [hs]
    rw [h]
    refine ⟨⟨fun _ => rfl, fun _ => rfl⟩, fun e => absurd rfl e, ?_⟩
    constructor
    · intro e
      cases e
    · intro e
      exact absurd rfl e.1
  · cases hw : fs.writable (input_filename pfx)
    · have h : (CopyTest fs pfx test_number).2
          = .thrown "Could not open user input file".toList := by
        unfold CopyTest
        simp [hs, hw]
      rw [h]
      refine ⟨?_, fun _ => ⟨fun _ => rfl, fun _ => rfl⟩, ?_⟩
      · constructor
        · intro e
          exact absurd (Outcome.thrown.inj e) (by decide)
        · intro e
          cases e
      · constructor
        · intro e
          cases e
        · intro e
          cases e.2
    · rw [CopyTest_of_open fs pfx test_number source hs hw]
      refine ⟨?_, fun _ => ?_, ?_⟩
      · constructor
        · intro e
          cases e
        · intro e
          cases e
      · constructor
        · intro e
          cases e
        · intro e
          cases e
      · exact ⟨fun _ => ⟨by simp, rfl⟩, fun _ => rfl⟩

/-- C15 on the fixtures of prefix `t`: test 3 has no input file and raises the
test input error. -/
theorem CopyTest_raises_iff_witness :
    (CopyTest twoFixtures "t".toList 3).2
      = .thrown "Could not open test input file".toList :=
  (CopyTest_raises_iff twoFixtures "t".toList 3).1.mpr (by decide)

/-- C19: when `prefix.n.in` does not open and `prefix.in` opens for writing,
`CopyTest` raises "Could not open test input file" and leaves `prefix.in` existing
and empty, whatever it held before. -/
theorem CopyTest_empties_before_raising (fs : FileSystem) (pfx : Str) (test_number : Int)
    (hmissing : fs.file (input_filename_test pfx test_number) = none)
    (hw : fs.writable (input_filename pfx) = true) :
    (CopyTest fs pfx test_number).2 = .thrown "Could not open test input file".toList
    ∧ (CopyTest fs pfx test_number).1.file (input_filename pfx) = some [] := by
  unfold CopyTest
  simp [hmissing, hw, FileSystem.put]

/-- C19 with `t.in` holding "old\n" and no `t.1.in`: after the failed call `t.in`
is empty. -/
theorem CopyTest_empties_before_raising_witness :
    (CopyTest (FileSystem.ofList [("t.in".toList, "old\n".toList)]) "t".toList 1).2
      = .thrown "Could not open test input file".toList
    ∧ (CopyTest (FileSystem.ofList [("t.in".toList, "old\n".toList)]) "t".toList 1).1.file
        (input_filename "t".toList) = some [] :=
  CopyTest_empties_before_raising (FileSystem.ofList [("t.in".toList, "old\n".toList)])
    "t".toList 1 (by decide) (by decide)

/-! ## `CORRECT` only for equal files -/

theorem compareStreams_user_at_end (b : Nat) (u c : IStream) (ln : Int)
    (hu : u.eofbit = true) (hc : c.eofbit = false) :
    compareStreams b u c ln ≠ some correctMessage := by
  cases b with
  | zero => simp [compareStreams]
  | succ b =>
    unfold compareStreams
    simp only [hu, hc, Bool.not_true, Bool.false_and, Bool.false_eq_true, if_false,
      Bool.not_false, Bool.and_self, if_true]
    decide

theorem compareStreams_correct_at_end (b : Nat) (u c : IStream) (ln : Int)
    (hu : u.eofbit = false) (hc : c.eofbit = true) :
    compareStreams b u c ln ≠ some correctMessage := by
  cases b with
  | zero => simp [compareStreams]
  | succ b =>
    unfold compareStreams
    simp only [hu, hc, Bool.not_true, Bool.and_false, Bool.false_eq_true, if_false,
      Bool.not_false, Bool.and_self, if_true, Bool.false_and]
    decide

/-- Two good streams that compare as `CORRECT` hold the same unread text. -/
theorem compareStreams_correct_imp_eq : ∀ (budget : Nat) (u c : IStream) (ln : Int),
    u.eofbit = false → u.failbit = false → c.eofbit = false → c.failbit = false →
    compareStreams budget u c ln = some correctMessage → u.rest = c.rest := by
  intro budget
  induction budget with
  | zero => intro u c ln _ _ _ _ h; simp [compareStreams] at h
  | succ b ih =>
    intro u c ln hue huf hce hcf h
    unfold compareStreams at h
    simp only [hue, hce, Bool.not_false, Bool.and_self, if_true] at h
    rcases hru : readLine u.rest with ⟨lu, _ | ru⟩
    · obtain ⟨eu, hlu⟩ := readLine_none _ _ hru
      rcases hrc : readLine c.rest with ⟨lc, _ | rc⟩
      · obtain ⟨ec, hlc⟩ := readLine_none _ _ hrc
        rw [getline_last u [] lu hue huf eu hlu, getline_last c [] lc hce hcf ec hlc] at h
        simp only at h
        by_cases hne : lu = lc
        · rw [eu, ec, hne]
        · rw [if_pos hne] at h
          exact absurd (Option.some.inj h) (mismatchMessage_ne_verdicts _ _ _).2.2
      · obtain ⟨ec, hlc⟩ := readLine_some _ _ _ hrc
        rw [getline_last u [] lu hue huf eu hlu, getline_newline c [] lc rc hce hcf ec hlc] at h
        simp only at h
        by_cases hne : lu = lc
        · rw [if_neg (not_not.mpr hne)] at h
          exact absurd h (compareStreams_user_at_end b _ _ _ rfl hce)
        · rw [if_pos hne] at h
          exact absurd (Option.some.inj h) (mismatchMessage_ne_verdicts _ _ _).2.2
    · obtain ⟨eu, hlu⟩ := readLine_some _ _ _ hru
      rcases hrc : readLine c.rest with ⟨lc, _ | rc⟩
      · obtain ⟨ec, hlc⟩ := readLine_none _ _ hrc
        rw [getline_newline u [] lu ru hue huf eu hlu, getline_last c [] lc hce hcf ec hlc] at h
        simp only at h
        by_cases hne : lu = lc
        · rw [if_neg (not_not.mpr hne)] at h
          exact absurd h (compareStreams_correct_at_end b _ _ _ hue rfl)
        · rw [if_pos hne] at h
          exact absurd (Option.some.inj h) (mismatchMessage_ne_verdicts _ _ _).2.2
      · obtain ⟨ec, hlc⟩ := readLine_some _ _ _ hrc
        rw [getline_newline u [] lu ru hue huf eu hlu,
          getline_newline c [] lc rc hce hcf ec hlc] at h
        simp only at h
        by_cases hne : lu = lc
        · rw [if_neg (not_not.mpr hne)] at h
          have := ih ⟨ru, u.eofbit, u.failbit⟩ ⟨rc, c.eofbit, c.failbit⟩ _ hue huf hce hcf h
          simp only at this
          rw [eu, ec, hne, this]
        · rw [if_pos hne] at h
          exact absurd (Option.some.inj h) (mismatchMessage_ne_verdicts _ _ _).2.2

/-- C18: if `CheckTest` returns "CORRECT\n", the user output file and the
expected output file both open and hold the same characters; in particular a
file against the same file with one more newline at its end, on either side, is
not judged CORRECT. -/
theorem CheckTest_correct_only_if_equal (fs : FileSystem) (pfx : Str) (test_number : Int) :
    ((CheckTest fs pfx test_number).2 = .returned "CORRECT\n".toList →
      ∃ c, fs.file (output_filename pfx) = some c
        ∧ fs.file (output_filename_test pfx test_number) = some c)
    ∧ (∀ c, fs.file (output_filename pfx) = some c →
        fs.file (output_filename_test pfx test_number) = some (c ++ ['\n']) →
        (CheckTest fs pfx test_number).2 ≠ .returned "CORRECT\n".toList)
    ∧ (∀ c, fs.file (output_filename pfx) = some (c ++ ['\n']) →
        fs.file (output_filename_test pfx test_number) = some c →
        (CheckTest fs pfx test_number).2 ≠ .returned "CORRECT\n".toList) := by
  have hmain : (CheckTest fs pfx test_number).2 = .returned "CORRECT\n".toList →
      ∃ c, fs.file (output_filename pfx) = some c
        ∧ fs.file (output_filename_test pfx test_number) = some c := by
    intro h
    rcases hu : fs.file (output_filename pfx) with _ | user
    · have e : (CheckTest fs pfx test_number).2
          = .thrown "Could not open user output file".toList := by
        unfold CheckTest
        rw [hu]
      rw [e] at h
      cases h
    · rcases hc : fs.file (output_filename_test pfx test_number) with _ | correct
      · have e : (CheckTest fs pfx test_number).2
            = .thrown "Could not open correct output file".toList := by
          unfold CheckTest
          rw [hu, hc]
        rw [e] at h
        cases h
      · obtain ⟨verdict, hv, he⟩ := CheckTest_of_open fs pfx test_number user correct hu hc
        rw [he] at h
        have hverdict : verdict = correctMessage := Outcome.returned.inj h
        rw [hverdict] at hv
        have := compareStreams_correct_imp_eq _ (IStream.open user) (IStream.open correct) 0
          rfl rfl rfl rfl hv
        simp only [IStream.open] at this
        exact ⟨user, rfl, by rw [this]⟩
  refine ⟨hmain, fun c hu hc h => ?_, fun c hu hc h => ?_⟩
  · obtain ⟨c2, h1, h2⟩ := hmain h
    rw [hu] at h1
    rw [hc] at h2
    have e : c ++ ['\n'] = c := by
      rw [← Option.some.inj h1] at h2
      exact Option.some.inj h2
    have := congrArg List.length e
    simp at this
  · obtain ⟨c2, h1, h2⟩ := hmain h
    rw [hu] at h1
    rw [hc] at h2
    have e : c ++ ['\n'] = c := by
      rw [← Option.some.inj h2] at h1
      exact Option.some.inj h1
    have := congrArg List.length e
    simp at this

/-- C18 on "a" against "a\n": the verdict is not CORRECT. -/
theorem CheckTest_correct_only_if_equal_witness :
    (CheckTest (FileSystem.ofList [("t.out".toList, "a".toList),
        ("t.1.out".toList, "a\n".toList)]) "t".toList 1).2
      ≠ .returned "CORRECT\n".toList :=
  (CheckTest_correct_only_if_equal (FileSystem.ofList [("t.out".toList, "a".toList),
      ("t.1.out".toList, "a\n".toList)]) "t".toList 1).2.1 "a".toList (by decide) (by decide)

/-! ## The spelling of the fixture names -/

theorem isDigit_digitChar (d : Nat) (h : d < 10) : isDigit (Nat.digitChar d) = true := by
  interval_cases d <;> decide

theorem digitChar_ne_zero (d : Nat) (h0 : 0 < d) (h : d < 10) : Nat.digitChar d ≠ '0' := by
  interval_cases d <;> decide

theorem toDigitsCore_digits : ∀ (fuel n : Nat) (ds : Str),
    (∀ c ∈ ds, isDigit c = true) →
    ∀ c ∈ Nat.toDigitsCore 10 fuel n ds, isDigit c = true := by
  intro fuel
  induction fuel with
  | zero => intro n ds h; simpa [Nat.toDigitsCore] using h
  | succ f ih =>
    intro n ds h
    have hd : ∀ c ∈ Nat.digitChar (n % 10) :: ds, isDigit c = true := by
      intro c hc
      rcases List.mem_cons.mp hc with e | e
      · rw [e]; exact isDigit_digitChar _ (Nat.mod_lt _ (by norm_num))
      · exact h c e
    rw [Nat.toDigitsCore]
    split
    · exact hd
    · exact ih _ _ hd

theorem toDigitsCore_leading : ∀ (fuel n : Nat) (ds : Str), n < fuel → n ≠ 0 →
    ∃ d, 0 < d ∧ d < 10 ∧ ∃ t, Nat.toDigitsCore 10 fuel n ds = Nat.digitChar d :: t := by
  intro fuel
  induction fuel with
  | zero => intro n ds h; omega
  | succ f ih =>
    intro n ds h hn
    by_cases h0 : n / 10 = 0
    · refine ⟨n % 10, by omega, Nat.mod_lt _ (by norm_num), ds, ?_⟩
      rw [Nat.toDigitsCore]
      simp [h0]
    · obtain ⟨d, hd0, hd, t, ht⟩ := ih (n / 10) (Nat.digitChar (n % 10) :: ds) (by omega) h0
      refine ⟨d, hd0, hd, t, ?_⟩
      rw [Nat.toDigitsCore]
      simp only [h0, if_false]
      exact ht

/-- C16: the four names are the prefix followed by ".in", by ".out", by
".<n>.in" and by ".<n>.out", where `<n>` is `decimal n`: for `n ≥ 0` a run of
decimal digits whose value is `n`, without a leading zero (just "0" for 0), and
for `n < 0` a '-' followed by the rendering of `-n`. -/
theorem fixture_names_spelled (pfx : Str) (n : Int) :
    input_filename pfx = pfx ++ ".in".toList
    ∧ output_filename pfx = pfx ++ ".out".toList
    ∧ input_filename_test pfx n = pfx ++ ".".toList ++ decimal n ++ ".in".toList
    ∧ output_filename_test pfx n = pfx ++ ".".toList ++ decimal n ++ ".out".toList
    ∧ (0 ≤ n → (∀ c ∈ decimal n, isDigit c = true)
        ∧ (digitsValue (decimal n) : Int) = n
        ∧ (n ≠ 0 → (decimal n).head? ≠ some '0')
        ∧ (n = 0 → decimal n = ['0']))
    ∧ (n < 0 → decimal n = '-' :: decimal (-n)) := by
  refine ⟨rfl, rfl, rfl, rfl, fun hn => ?_, fun hn => ?_⟩
  · obtain ⟨k, rfl⟩ := Int.eq_ofNat_of_zero_le hn
    have hdec : decimal (k : Int) = decimalNat k := rfl
    rw [hdec]
    refine ⟨?_, ?_, ?_, ?_⟩
    · exact toDigitsCore_digits (k + 1) k [] (by simp)
    · rw [digitsValue_decimalNat]
    · intro hk
      have hk0 : k ≠ 0 := fun e => hk (by rw [e]; rfl)
      obtain ⟨d, hd0, hd, t, ht⟩ := toDigitsCore_leading (k + 1) k [] (by omega) hk0
      have : decimalNat k = Nat.digitChar d :: t := ht
      rw [this]
      simp only [List.head?_cons, ne_eq, Option.some.injEq]
      exact digitChar_ne_zero d hd0 hd
    · intro hk
      have hk0 : k = 0 := by exact_mod_cast hk
      rw [hk0]
      rfl
  · obtain ⟨k, rfl⟩ := Int.eq_negSucc_of_lt_zero hn
    have e : -Int.negSucc k = ((k + 1 : Nat) : Int) := by
      rw [Int.neg_negSucc]
    rw [e]
    rfl

/-- C16 at prefix "t" and the numbers 12 and -3. -/
theorem fixture_names_spelled_witness :
    input_filename_test "t".toList 12 = "t.12.in".toList
    ∧ decimal (-3) = '-' :: decimal (-(-3)) :=
  ⟨((fixture_names_spelled "t".toList 12).2.2.1).trans (by decide),
   (fixture_names_spelled "t".toList (-3)).2.2.2.2.2 (by decide)⟩


/-! ## `to_int` on every string -/

theorem isDigit_iff (c : Char) : isDigit c = true ↔ ('0' ≤ c ∧ c ≤ '9') := by
  simp [isDigit]

theorem isDigit_toNat (c : Char) (h : isDigit c = true) : 48 ≤ c.toNat ∧ c.toNat ≤ 57 := by
  rw [isDigit_iff] at h
  obtain ⟨h1, h2⟩ := h
  rw [Char.le_def] at h1 h2
  exact ⟨h1, h2⟩

theorem wrapInt_add_left (x y : Int) : wrapInt (wrapInt x + y) = wrapInt (x + y) := by
  unfold wrapInt
  omega

theorem wrapInt_sub_left (x y : Int) : wrapInt (wrapInt x - y) = wrapInt (x - y) := by
  unfold wrapInt
  omega

theorem wrapInt_mul_ten (x : Int) : wrapInt (wrapInt x * 10) = wrapInt (x * 10) := by
  unfold wrapInt
  omega

/-- One pass of the digit loop computes, up to the wrap, `num * 10 + c - '0'`. -/
theorem wrapInt_digit_step (a c : Int) :
    wrapInt (wrapInt (wrapInt (wrapInt a * 10) + c) - 48) = wrapInt (a * 10 + c - 48) := by
  rw [wrapInt_sub_left, wrapInt_mul_ten, add_sub_assoc, wrapInt_add_left, add_sub_assoc]

/-- The digit loop on a run of digits: the accumulator stays the wrapped value
of the digits read so far. -/
theorem to_int_digits_of_digits (str : Str) : ∀ (cs : Str) (num : Int) (acc : Nat),
    (∀ c ∈ cs, isDigit c = true) → num = wrapInt acc →
    to_int_digits str cs num
      = .ok (wrapInt ((cs.foldl (fun a c => a * 10 + (c.toNat - 48)) acc : Nat) : Int)) := by
  intro cs
  induction cs with
  | nil => intro num acc _ h; simp [to_int_digits, h]
  | cons c cs ih =>
    intro num acc hd h
    have hc := hd c (by simp)
    obtain ⟨h48, h57⟩ := isDigit_toNat c hc
    simp only [to_int_digits, (isDigit_iff c).mp hc, and_self, if_true, List.foldl_cons]
    apply ih _ _ (fun x hx => hd x (List.mem_cons_of_mem _ hx))
    have e : ((acc * 10 + (c.toNat - 48) : Nat) : Int)
        = (acc : Int) * 10 + (c.toNat : Int) - 48 := by
      omega
    have e0 : (('0' : Char).toNat : Int) = 48 := rfl
    rw [e, h, e0]
    exact wrapInt_digit_step _ _

/-- The digit loop on characters one of which is not a digit throws. -/
theorem to_int_digits_of_other (str : Str) : ∀ (cs : Str) (num : Int),
    (∃ c ∈ cs, isDigit c = false) →
    to_int_digits str cs num = .error (str ++ " is not a number".toList) := by
  intro cs
  induction cs with
  | nil => intro num h; simp at h
  | cons c cs ih =>
    intro num h
    cases hc : isDigit c
    · have hn : ¬ ('0' ≤ c ∧ c ≤ '9') := by
        rw [← isDigit_iff, hc]
        simp
      simp only [to_int_digits, hn, if_false]
    · obtain ⟨x, hx, hxd⟩ := h
      rcases List.mem_cons.mp hx with e | e
      · rw [e, hc] at hxd
        cases hxd
      · simp only [to_int_digits, (isDigit_iff c).mp hc, and_self, if_true]
        exact ih _ ⟨x, e, hxd⟩

/-- The function `to_int` is its digit loop over the characters after the
sign, followed by the multiplication by the sign. -/
theorem to_int_eq (str : Str) :
    to_int str
      = match to_int_digits str (afterSign str) 0 with
        | .ok num => .ok (wrapInt (signOf str * num))
        | .error what => .error what := by
  cases str with
  | nil => rfl
  | cons c cs =>
    by_cases hc : c = '-'
    · subst hc
      rfl
    · have h1 : afterSign (c :: cs) = c :: cs := by
        unfold afterSign
        split
        · rename_i heq
          exact absurd (List.cons.inj heq).1 hc
        · rfl
      have h2 : signOf (c :: cs) = 1 := by
        unfold signOf
        split
        · rename_i heq
          exact absurd (List.cons.inj heq).1 hc
        · rfl
      rw [h1, h2]
      simp [to_int, hc]

theorem wrapInt_sign_mul (sign : Int) (hs : sign = 1 ∨ sign = -1) (x : Int) :
    wrapInt (sign * wrapInt x) = wrapInt (sign * x) := by
  unfold wrapInt
  rcases hs with h | h <;> subst h <;> omega

theorem signOf_cases (str : Str) : signOf str = 1 ∨ signOf str = -1 := by
  unfold signOf
  split
  · exact Or.inr rfl
  · exact Or.inl rfl

theorem to_int_of_digits (s : Str) (h : ∀ c ∈ afterSign s, isDigit c = true) :
    to_int s = .ok (wrapInt (signOf s * (digitsValue (afterSign s) : Int))) := by
  rw [to_int_eq, to_int_digits_of_digits s (afterSign s) 0 0 h rfl]
  simp only
  rw [wrapInt_sign_mul _ (signOf_cases s)]
  rfl

theorem to_int_of_other (s : Str) (h : ∃ c ∈ afterSign s, isDigit c = false) :
    to_int s = .error (s ++ " is not a number".toList) := by
  rw [to_int_eq, to_int_digits_of_other s (afterSign s) 0 h]

/-- C17: `to_int` throws, with the text "<s> is not a number", exactly when `s`
without one leading '-' has a character that is not a decimal digit.  Otherwise
it returns the value of these digits, times -1 when `s` starts with '-', wrapped
to 32 bits; so it returns that number itself whenever it fits a 32-bit `int`. -/
theorem to_int_spec (s : Str) :
    (to_int s = .error (s ++ " is not a number".toList)
      ↔ ∃ c ∈ afterSign s, isDigit c = false)
    ∧ ((∃ what, to_int s = .error what) ↔ ∃ c ∈ afterSign s, isDigit c = false)
    ∧ ((∀ c ∈ afterSign s, isDigit c = true) →
        to_int s = .ok (wrapInt (signOf s * (digitsValue (afterSign s) : Int))))
    ∧ ((∀ c ∈ afterSign s, isDigit c = true) →
        -2147483648 ≤ signOf s * (digitsValue (afterSign s) : Int) →
        signOf s * (digitsValue (afterSign s) : Int) < 2147483648 →
        to_int s = .ok (signOf s * (digitsValue (afterSign s) : Int))) := by
  have hthrow : (∃ what, to_int s = .error what) → ∃ c ∈ afterSign s, isDigit c = false := by
    rintro ⟨what, hw⟩
    by_contra hno
    have hall : ∀ c ∈ afterSign s, isDigit c = true := by
      intro c hc
      cases hd : isDigit c
      · exact absurd ⟨c, hc, hd⟩ hno
      · rfl
    rw [to_int_of_digits s hall] at hw
    cases hw
  refine ⟨⟨fun h => hthrow ⟨_, h⟩, to_int_of_other s⟩,
    ⟨hthrow, fun h => ⟨_, to_int_of_other s h⟩⟩, to_int_of_digits s, fun h h0 h1 => ?_⟩
  rw [to_int_of_digits s h, wrapInt_of_range _ h0 h1]

/-- C17 on "-12", which gives -12, and on "5-", which is rejected. -/
theorem to_int_spec_witness :
    to_int "-12".toList = .ok (-12)
    ∧ to_int "5-".toList = .error "5- is not a number".toList :=
  ⟨((to_int_spec "-12".toList).2.2.2 (by decide) (by decide) (by decide)).trans
      (congrArg Except.ok (by decide)),
   (to_int_spec "5-".toList).1.mpr ⟨'-', by decide, by decide⟩⟩

/-- The examples of C17 evaluated: "007" gives 7, and "+5", "--5" and " 5" are
rejected like "5-". -/
theorem to_int_examples :
    to_int "007".toList = .ok 7
    ∧ to_int "+5".toList = .error "+5 is not a number".toList
    ∧ to_int "--5".toList = .error "--5 is not a number".toList
    ∧ to_int " 5".toList = .error " 5 is not a number".toList :=
  ⟨rfl, rfl, rfl, rfl⟩

/-! ## The whole loop -/

/-- When nothing raises in any test, the loop returns after the reports of all
tests. -/
theorem runTests_all_pass (run : FileSystem → FileSystem) (pfx : Str) (tests : Int)
    (fs : FileSystem) (hmax : tests < 2147483647)
    (hr : ∀ j : Nat, (j : Int) < tests →
      raisesAt run (stateBefore run pfx fs j) pfx ((j : Int) + 1) = false) :
    (runTests run pfx tests fs).outcome = .returned ()
    ∧ (runTests run pfx tests fs).cout
      = (List.range' 0 tests.toNat).map (reportAt run pfx fs) := by
  have hadv := testLoop_advance run pfx tests fs tests.toNat 0 (tests.toNat + 1) []
    (fun i _ h2 => hr i (by omega)) (by omega) (by omega) (by omega)
  have h0 : stateBefore run pfx fs 0 = fs := rfl
  have h1 : ((0 : Nat) : Int) + 1 = 1 := by simp
  rw [h0, h1] at hadv
  unfold runTests
  rw [hadv]
  have e : tests.toNat + 1 - tests.toNat = 0 + 1 := by omega
  rw [e, testLoop]
  have hgt : ¬ (((0 + tests.toNat : Nat) : Int) + 1 ≤ tests) := by omega
  simp only [hgt, if_false, List.nil_append, and_self]

/-- When test `k + 1` is the first in which something raises, the loop throws
after the reports of the tests before it. -/
theorem runTests_first_raise (run : FileSystem → FileSystem) (pfx : Str) (tests : Int)
    (fs : FileSystem) (hint : tests < 2147483648) (k : Nat) (hk : (k : Int) < tests)
    (hr : ∀ j : Nat, j < k →
      raisesAt run (stateBefore run pfx fs j) pfx ((j : Int) + 1) = false)
    (hraise : raisesAt run (stateBefore run pfx fs k) pfx ((k : Int) + 1) = true) :
    ∃ what, (runTests run pfx tests fs).outcome = .thrown what
      ∧ (runTests run pfx tests fs).cout = (List.range' 0 k).map (reportAt run pfx fs) := by
  have hadv := testLoop_advance run pfx tests fs k 0 (tests.toNat + 1) []
    (fun i _ h2 => hr i (by omega)) (Or.inr (by omega)) (by omega) (by omega)
  obtain ⟨what, hwhat⟩ := PerformTest_of_raises run _ pfx _ hraise
  refine ⟨what, ?_⟩
  have h0 : stateBefore run pfx fs 0 = fs := rfl
  have h1 : ((0 : Nat) : Int) + 1 = 1 := by simp
  rw [h0, h1] at hadv
  unfold runTests
  rw [hadv]
  obtain ⟨b, hb⟩ : ∃ b, tests.toNat + 1 - k = b + 1 := ⟨tests.toNat - k, by omega⟩
  rw [hb, testLoop]
  have hle : ((0 + k : Nat) : Int) + 1 ≤ tests := by omega
  simp only [hle, if_true]
  have e0 : 0 + k = k := by omega
  rw [e0]
  cases hp : PerformTest run (stateBefore run pfx fs k) pfx ((k : Int) + 1) with
  | mk fs1 out =>
    rw [hp] at hwhat
    simp only at hwhat
    subst hwhat
    exact ⟨rfl, List.nil_append _⟩

/-- Among the tests, either nothing raises or there is a first test in which
something raises. -/
theorem first_raise_or_none (run : FileSystem → FileSystem) (pfx : Str) (tests : Int)
    (fs : FileSystem) :
    (∀ j : Nat, (j : Int) < tests →
      raisesAt run (stateBefore run pfx fs j) pfx ((j : Int) + 1) = false)
    ∨ ∃ k : Nat, (k : Int) < tests
        ∧ raisesAt run (stateBefore run pfx fs k) pfx ((k : Int) + 1) = true
        ∧ ∀ j : Nat, j < k →
            raisesAt run (stateBefore run pfx fs j) pfx ((j : Int) + 1) = false := by
  by_cases h : ∃ k : Nat, (k : Int) < tests
      ∧ raisesAt run (stateBefore run pfx fs k) pfx ((k : Int) + 1) = true
  · right
    classical
    refine ⟨Nat.find h, (Nat.find_spec h).1, (Nat.find_spec h).2, fun j hj => ?_⟩
    have hmin := Nat.find_min h hj
    cases hv : raisesAt run (stateBefore run pfx fs j) pfx ((j : Int) + 1)
    · rfl
    · exact absurd ⟨by have := (Nat.find_spec h).1; omega, hv⟩ hmin
  · left
    intro j hj
    cases hv : raisesAt run (stateBefore run pfx fs j) pfx ((j : Int) + 1)
    · rfl
    · exact absurd ⟨j, hj, hv⟩ h

/-! ## The exit code of `main` -/

theorem CompileSource_supported (b : Build) (exec : Str → Str → FileSystem → FileSystem)
    (m : Machine) (source_name : Str)
    (h : ".c".toList <:+ source_name ∨ ".cpp".toList <:+ source_name
      ∨ ".cc".toList <:+ source_name) :
    (CompileSource b exec m source_name).2 = .ok () := by
  unfold CompileSource
  by_cases hc : ends_with source_name ".c".toList = true
  · rw [if_pos hc]
  · have h2 : (ends_with source_name ".cpp".toList || ends_with source_name ".cc".toList)
        = true := by
      rw [Bool.or_eq_true]
      rcases h with e | e | e
      · exact absurd ((ends_with_iff_suffix _ _).mpr e) hc
      · exact Or.inl ((ends_with_iff_suffix _ _).mpr e)
      · exact Or.inr ((ends_with_iff_suffix _ _).mpr e)
    rw [if_neg hc, if_pos h2]

theorem CompileSource_unsupported (b : Build) (exec : Str → Str → FileSystem → FileSystem)
    (m : Machine) (source_name : Str) (hc : ¬ ".c".toList <:+ source_name)
    (hcpp : ¬ ".cpp".toList <:+ source_name) (hcc : ¬ ".cc".toList <:+ source_name) :
    CompileSource b exec m source_name
      = (m, .error (source_name ++ " does not have a supported file extension".toList)) := by
  have h : ends_with source_name ".c".toList = false := by
    rw [Bool.eq_false_iff]
    exact fun e => hc ((ends_with_iff_suffix _ _).mp e)
  have h2 : ends_with source_name ".cpp".toList = false := by
    rw [Bool.eq_false_iff]
    exact fun e => hcpp ((ends_with_iff_suffix _ _).mp e)
  have h3 : ends_with source_name ".cc".toList = false := by
    rw [Bool.eq_false_iff]
    exact fun e => hcc ((ends_with_iff_suffix _ _).mp e)
  simp only [CompileSource, h, h2, h3, Bool.or_self, Bool.false_eq_true, if_false]

theorem wrapInt_lt (x : Int) : wrapInt x < 2147483648 := by
  unfold wrapInt
  omega

/-- What `to_int` returns is a 32-bit `int`. -/
theorem to_int_lt (str : Str) (tests : Int) (h : to_int str = .ok tests) :
    tests < 2147483648 := by
  rw [to_int_eq] at h
  split at h
  · rename_i num _
    have e := Except.ok.inj h
    rw [← e]
    exact wrapInt_lt _
  · cases h

/-- With five arguments, a supported source name and a numeric test count, the
exit code of `main` is decided by how the test loop ends. -/
theorem main_exit_of_tests (b : Build) (chdir : Str → FileSystem → FileSystem)
    (exec : Str → Str → FileSystem → FileSystem) (argv : List Str) (fs : FileSystem)
    (tests : Int) (hlen : argv.length = 5)
    (hcomp : (CompileSource b exec { fs := chdir (argv.getD 1 []) fs, launched := [] }
      (argv.getD 2 [])).2 = .ok ())
    (hnum : to_int (argv.getD 4 []) = .ok tests) :
    (main b chdir exec argv fs).exit
      = match (runTests (exec b.kExecutableName []) (argv.getD 3 []) tests
          (filesForTests b chdir exec argv fs)).outcome with
        | .returned _ => some 0
        | .thrown _ => some 1
        | .unfinished => none := by
  unfold main filesForTests
  simp only [hlen, ne_eq, not_true_eq_false, if_false]
  cases hcs : CompileSource b exec { fs := chdir (argv.getD 1 []) fs, launched := [] }
      (argv.getD 2 []) with
  | mk m r =>
    rw [hcs] at hcomp
    simp only at hcomp
    subst hcomp
    simp only [hnum]
    cases (runTests (exec b.kExecutableName []) (argv.getD 3 []) tests m.fs).outcome <;> rfl

/-- C12: the exit code of `main`.  It is 0 when `argc` is not 5 (four
arguments after the program name), 0 when the source name has no supported
ending, 0 when the test count is rejected by `to_int`.  With a test count
`tests` below `2^31 - 1` (at `2^31 - 1` the last `++i` leaves the range of `int`)
it is 0 when neither `CopyTest` nor `CheckTest` raises in any test, whatever the
verdicts, and it is 1 exactly when there is a first test in which one of them
raises.  An exit code 1 only comes out of the test loop. -/
theorem main_exit_code (b : Build) (chdir : Str → FileSystem → FileSystem)
    (exec : Str → Str → FileSystem → FileSystem) (argv : List Str) (fs : FileSystem) :
    (argv.length ≠ 5 → (main b chdir exec argv fs).exit = some 0)
    ∧ (argv.length = 5 → ¬ ".c".toList <:+ argv.getD 2 [] →
        ¬ ".cpp".toList <:+ argv.getD 2 [] → ¬ ".cc".toList <:+ argv.getD 2 [] →
        (main b chdir exec argv fs).exit = some 0)
    ∧ (argv.length = 5 →
        (".c".toList <:+ argv.getD 2 [] ∨ ".cpp".toList <:+ argv.getD 2 []
          ∨ ".cc".toList <:+ argv.getD 2 []) →
        (∃ what, to_int (argv.getD 4 []) = .error what) →
        (main b chdir exec argv fs).exit = some 0)
    ∧ (∀ tests : Int, argv.length = 5 →
        (".c".toList <:+ argv.getD 2 [] ∨ ".cpp".toList <:+ argv.getD 2 []
          ∨ ".cc".toList <:+ argv.getD 2 []) →
        to_int (argv.getD 4 []) = .ok tests → tests < 2147483647 →
        ((∀ j : Nat, (j : Int) < tests →
            raisesAt (exec b.kExecutableName [])
              (stateBefore (exec b.kExecutableName []) (argv.getD 3 [])
                (filesForTests b chdir exec argv fs) j)
              (argv.getD 3 []) ((j : Int) + 1) = false) →
          (main b chdir exec argv fs).exit = some 0)
        ∧ ((main b chdir exec argv fs).exit = some 1
          ↔ ∃ k : Nat, (k : Int) < tests
              ∧ raisesAt (exec b.kExecutableName [])
                  (stateBefore (exec b.kExecutableName []) (argv.getD 3 [])
                    (filesForTests b chdir exec argv fs) k)
                  (argv.getD 3 []) ((k : Int) + 1) = true
              ∧ ∀ j : Nat, j < k →
                  raisesAt (exec b.kExecutableName [])
                    (stateBefore (exec b.kExecutableName []) (argv.getD 3 [])
                      (filesForTests b chdir exec argv fs) j)
                    (argv.getD 3 []) ((j : Int) + 1) = false))
    ∧ ((main b chdir exec argv fs).exit = some 1 →
        argv.length = 5
        ∧ (".c".toList <:+ argv.getD 2 [] ∨ ".cpp".toList <:+ argv.getD 2 []
            ∨ ".cc".toList <:+ argv.getD 2 [])
        ∧ ∃ tests, to_int (argv.getD 4 []) = .ok tests) := by
  have hA : argv.length ≠ 5 → (main b chdir exec argv fs).exit = some 0 := by
    intro h
    unfold main
    rw [if_pos h]
  have hB : argv.length = 5 → ¬ ".c".toList <:+ argv.getD 2 [] →
      ¬ ".cpp".toList <:+ argv.getD 2 [] → ¬ ".cc".toList <:+ argv.getD 2 [] →
      (main b chdir exec argv fs).exit = some 0 := by
    intro hlen hc hcpp hcc
    unfold main
    simp only [hlen, ne_eq, not_true_eq_false, if_false]
    rw [CompileSource_unsupported b exec _ _ hc hcpp hcc]
  have hC : argv.length = 5 →
      (".c".toList <:+ argv.getD 2 [] ∨ ".cpp".toList <:+ argv.getD 2 []
        ∨ ".cc".toList <:+ argv.getD 2 []) →
      (∃ what, to_int (argv.getD 4 []) = .error what) →
      (main b chdir exec argv fs).exit = some 0 := by
    rintro hlen hsup ⟨what, hw⟩
    have hcomp := CompileSource_supported b exec
      { fs := chdir (argv.getD 1 []) fs, launched := [] } (argv.getD 2 []) hsup
    unfold main
    simp only [hlen, ne_eq, not_true_eq_false, if_false]
    cases hcs : CompileSource b exec { fs := chdir (argv.getD 1 []) fs, launched := [] }
        (argv.getD 2 []) with
    | mk m r =>
      rw [hcs] at hcomp
      simp only at hcomp
      subst hcomp
      simp only [hw]
  refine ⟨hA, hB, hC, ?_, ?_⟩
  · intro tests hlen hsup hnum hmax
    have hcomp := CompileSource_supported b exec
      { fs := chdir (argv.getD 1 []) fs, launched := [] } (argv.getD 2 []) hsup
    have hexit := main_exit_of_tests b chdir exec argv fs tests hlen hcomp hnum
    have hpass : (∀ j : Nat, (j : Int) < tests →
          raisesAt (exec b.kExecutableName [])
            (stateBefore (exec b.kExecutableName []) (argv.getD 3 [])
              (filesForTests b chdir exec argv fs) j)
            (argv.getD 3 []) ((j : Int) + 1) = false) →
        (main b chdir exec argv fs).exit = some 0 := by
      intro hr
      rw [hexit, (runTests_all_pass _ _ tests _ hmax hr).1]
    have hraise : (∃ k : Nat, (k : Int) < tests
          ∧ raisesAt (exec b.kExecutableName [])
              (stateBefore (exec b.kExecutableName []) (argv.getD 3 [])
                (filesForTests b chdir exec argv fs) k)
              (argv.getD 3 []) ((k : Int) + 1) = true
          ∧ ∀ j : Nat, j < k →
              raisesAt (exec b.kExecutableName [])
                (stateBefore (exec b.kExecutableName []) (argv.getD 3 [])
                  (filesForTests b chdir exec argv fs) j)
                (argv.getD 3 []) ((j : Int) + 1) = false) →
        (main b chdir exec argv fs).exit = some 1 := by
      rintro ⟨k, hk, hkr, hbefore⟩
      obtain ⟨what, hout, _⟩ := runTests_first_raise _ _ tests _ (by omega) k hk hbefore hkr
      rw [hexit, hout]
    refine ⟨hpass, ⟨fun h1 => ?_, hraise⟩⟩
    rcases first_raise_or_none (exec b.kExecutableName []) (argv.getD 3 []) tests
        (filesForTests b chdir exec argv fs) with hnone | hsome
    · rw [hpass hnone] at h1
      exact absurd (Option.some.inj h1) (by decide)
    · exact hsome
  · intro h1
    by_cases hlen : argv.length = 5
    · by_cases hsup : ".c".toList <:+ argv.getD 2 [] ∨ ".cpp".toList <:+ argv.getD 2 []
          ∨ ".cc".toList <:+ argv.getD 2 []
      · refine ⟨hlen, hsup, ?_⟩
        cases hnum : to_int (argv.getD 4 []) with
        | ok tests => exact ⟨tests, rfl⟩
        | error what =>
          rw [hC hlen hsup ⟨what, hnum⟩] at h1
          exact absurd (Option.some.inj h1) (by decide)
      · rw [hB hlen (fun e => hsup (Or.inl e)) (fun e => hsup (Or.inr (Or.inl e)))
          (fun e => hsup (Or.inr (Or.inr e)))] at h1
        exact absurd (Option.some.inj h1) (by decide)
    · rw [hA hlen] at h1
      exact absurd (Option.some.inj h1) (by decide)

/-- C12 on three tests asked for with `t.3.in` missing: the exit code is 1; and
with one argument missing the exit code is 0. -/
theorem main_exit_code_witness :
    (main Build.linux (fun _ fs => fs) copyExec
        ["autotest".toList, ".".toList, "prog.c".toList, "t".toList, "3".toList]
        twoFixtures).exit = some 1
    ∧ (main Build.linux (fun _ fs => fs) copyExec
        ["autotest".toList, ".".toList, "prog.c".toList, "t".toList] twoFixtures).exit
      = some 0 :=
  ⟨((main_exit_code Build.linux (fun _ fs => fs) copyExec
        ["autotest".toList, ".".toList, "prog.c".toList, "t".toList, "3".toList]
        twoFixtures).2.2.2.1 3 (by decide) (Or.inl (by decide)) rfl (by decide)).2.mpr
      ⟨2, by decide, by decide, by intro j hj; interval_cases j <;> decide⟩,
   (main_exit_code Build.linux (fun _ fs => fs) copyExec
        ["autotest".toList, ".".toList, "prog.c".toList, "t".toList] twoFixtures).1
      (by decide)⟩

/-! ## Standard output when every test passes -/

/-- With both files open on the same contents, `CheckTest` returns the CORRECT
message. -/
theorem CheckTest_same_contents (fs : FileSystem) (pfx : Str) (test_number : Int) (c : Str)
    (hu : fs.file (output_filename pfx) = some c)
    (hc : fs.file (output_filename_test pfx test_number) = some c) :
    CheckTest fs pfx test_number = (fs, .returned correctMessage) := by
  unfold CheckTest
  rw [hu, hc]
  simp only
  rw [compareStreams_self (c.length + 2) (IStream.open c) 0 (Or.inr rfl)
    (by rw [passesLeft_open])]

/-- A test whose input fixture opens, whose user input file can be written and
after whose run the two output files hold the same contents: nothing raises
and the piece written to `cout` is the CORRECT report followed by a newline. -/
theorem reportAt_of_correct (run : FileSystem → FileSystem) (pfx : Str) (fs : FileSystem)
    (j : Nat) (source c : Str)
    (hin : (stateBefore run pfx fs j).file (input_filename_test pfx ((j : Int) + 1))
      = some source)
    (hw : (stateBefore run pfx fs j).writable (input_filename pfx) = true)
    (hu : (run (CopyTest (stateBefore run pfx fs j) pfx ((j : Int) + 1)).1).file
      (output_filename pfx) = some c)
    (hc : (run (CopyTest (stateBefore run pfx fs j) pfx ((j : Int) + 1)).1).file
      (output_filename_test pfx ((j : Int) + 1)) = some c) :
    raisesAt run (stateBefore run pfx fs j) pfx ((j : Int) + 1) = false
    ∧ reportAt run pfx fs j
      = "Test #".toList ++ decimal ((j : Int) + 1) ++ ": CORRECT\n".toList ++ "\n".toList := by
  have hcheck := CheckTest_same_contents _ pfx ((j : Int) + 1) c hu hc
  have hcopy := CopyTest_of_open _ pfx ((j : Int) + 1) source hin hw
  have hr : raisesAt run (stateBefore run pfx fs j) pfx ((j : Int) + 1) = false := by
    unfold raisesAt
    rw [hcheck]
    rw [hcopy]
    rfl
  refine ⟨hr, ?_⟩
  obtain ⟨verdict, hv, hrep⟩ := reportAt_of_not_raises run pfx fs j hr
  rw [hcheck] at hv
  have e : verdict = correctMessage := (Outcome.returned.inj hv).symm
  rw [hrep, e]
  simp [correctMessage]

/-- C13 as stated fails on the code: with prefix "t", two tests, fixtures that
open, and a tested program whose output equals the expected output of each
test, the text on standard output is "Test #1: CORRECT", an empty line,
"Test #2: CORRECT", an empty line; it is not the two report lines with nothing
in between. -/
theorem stdout_has_empty_lines :
    (∀ j : Nat, j < 2 →
      (stateBefore copyProgram "t".toList passingFixtures j).file
          (input_filename_test "t".toList ((j : Int) + 1)) ≠ none
      ∧ (stateBefore copyProgram "t".toList passingFixtures j).writable
          (input_filename "t".toList) = true
      ∧ (copyProgram (CopyTest (stateBefore copyProgram "t".toList passingFixtures j)
            "t".toList ((j : Int) + 1)).1).file (output_filename "t".toList) ≠ none
      ∧ (copyProgram (CopyTest (stateBefore copyProgram "t".toList passingFixtures j)
            "t".toList ((j : Int) + 1)).1).file (output_filename "t".toList)
        = (copyProgram (CopyTest (stateBefore copyProgram "t".toList passingFixtures j)
            "t".toList ((j : Int) + 1)).1).file
            (output_filename_test "t".toList ((j : Int) + 1)))
    ∧ streamText (runTests copyProgram "t".toList 2 passingFixtures).cout
      = "Test #1: CORRECT\n\nTest #2: CORRECT\n\n".toList
    ∧ streamText (runTests copyProgram "t".toList 2 passingFixtures).cout
      ≠ "Test #1: CORRECT\nTest #2: CORRECT\n".toList := by
  refine ⟨?_, by decide, by decide⟩
  intro j hj
  interval_cases j <;> decide

/-- C13 as amended: for a test count `N` below `2^31 - 1`, if for every test
the input fixture opens, the user input file can be written, and after the run
the user output file and the expected output file open on the same contents,
then the loop returns and standard output is, for each test `i` from 1 to `N` in
order, the line "Test #<i>: CORRECT" followed by an empty line. -/
theorem stdout_all_correct (run : FileSystem → FileSystem) (pfx : Str) (N : Nat)
    (fs : FileSystem) (hmax : (N : Int) < 2147483647)
    (hin : ∀ j : Nat, j < N →
      (stateBefore run pfx fs j).file (input_filename_test pfx ((j : Int) + 1)) ≠ none)
    (hw : ∀ j : Nat, j < N →
      (stateBefore run pfx fs j).writable (input_filename pfx) = true)
    (hout : ∀ j : Nat, j < N →
      (run (CopyTest (stateBefore run pfx fs j) pfx ((j : Int) + 1)).1).file
          (output_filename pfx) ≠ none
      ∧ (run (CopyTest (stateBefore run pfx fs j) pfx ((j : Int) + 1)).1).file
          (output_filename pfx)
        = (run (CopyTest (stateBefore run pfx fs j) pfx ((j : Int) + 1)).1).file
          (output_filename_test pfx ((j : Int) + 1))) :
    (runTests run pfx N fs).outcome = .returned ()
    ∧ streamText (runTests run pfx N fs).cout
      = streamText ((List.range' 0 N).map (fun (j : Nat) =>
          "Test #".toList ++ decimal ((j : Int) + 1) ++ ": CORRECT\n".toList ++ "\n".toList)) := by
  have hone : ∀ j : Nat, j < N →
      raisesAt run (stateBefore run pfx fs j) pfx ((j : Int) + 1) = false
      ∧ reportAt run pfx fs j
        = "Test #".toList ++ decimal ((j : Int) + 1) ++ ": CORRECT\n".toList ++ "\n".toList := by
    intro j hj
    obtain ⟨source, hs⟩ := Option.ne_none_iff_exists'.mp (hin j hj)
    obtain ⟨hsome, hsame⟩ := hout j hj
    obtain ⟨c, hu⟩ := Option.ne_none_iff_exists'.mp hsome
    exact reportAt_of_correct run pfx fs j source c hs (hw j hj) hu (by rw [← hsame, hu])
  obtain ⟨h1, h2⟩ := runTests_all_pass run pfx N fs hmax
    (fun j hj => (hone j (by omega)).1)
  refine ⟨h1, ?_⟩
  rw [h2]
  have hN : (N : Int).toNat = N := Int.toNat_ofNat N
  rw [hN]
  congr 1
  apply List.map_congr_left
  intro j hj
  have hj2 : j < N := by
    have := (List.mem_range'_1.mp hj).2
    omega
  exact (hone j hj2).2

/-- C13 as amended, on prefix "t" with two passing tests. -/
theorem stdout_all_correct_witness :
    (runTests copyProgram "t".toList ((2 : Nat) : Int) passingFixtures).outcome = .returned ()
    ∧ streamText (runTests copyProgram "t".toList ((2 : Nat) : Int) passingFixtures).cout
      = "Test #1: CORRECT\n\nTest #2: CORRECT\n\n".toList :=
  ⟨(stdout_all_correct copyProgram "t".toList 2 passingFixtures (by decide)
      (by intro j hj; interval_cases j <;> decide)
      (by intro j hj; interval_cases j <;> decide)
      (by intro j hj; interval_cases j <;> decide)).1,
   ((stdout_all_correct copyProgram "t".toList 2 passingFixtures (by decide)
      (by intro j hj; interval_cases j <;> decide)
      (by intro j hj; interval_cases j <;> decide)
      (by intro j hj; interval_cases j <;> decide)).2).trans
    (by decide)⟩

end Autotest
